import Mathlib

/-!
# Slashing-protection store: a shallow embedding

This file embeds the slashing-protection database of
`validator_client/slashing_protection/src/slashing_database.rs` as pure Lean
functions over an explicit state, and proves the spec's claims about it.

The SQLite tables become lists of rows; the internal validator id is the index
into the `validators` list (ids are dense and assigned at registration, which
matches `INTEGER PRIMARY KEY` auto-assignment up to renaming).  Slots, epochs,
public keys and 32-byte hashes carry no arithmetic in the embedded code (only
equality and order comparisons), so they are embedded as `Nat`.

Fallible operations return `Except NotSafe _`; operations that run inside a
transaction which is rolled back on error return a pair
`Except _ _ × SlashingDatabase` whose second component is the committed state
(the pre-state when the transaction is dropped on error).
-/

/-- `lower_bound.rs::LowerBound`: per-validator optional minima. -/
structure LowerBound where
  block_proposal_slot : Option Nat
  attestation_source_epoch : Option Nat
  attestation_target_epoch : Option Nat
deriving DecidableEq

/-- `Default` for `LowerBound`: all fields absent. -/
def LowerBound.default : LowerBound := ⟨none, none, none⟩

/-- Rust `Option::max` semantics on `Option Nat`: `none` is smaller than any
`some`, and two `some`s compare by value.  An absent value never wins against a
present one. -/
def optionMax : Option Nat → Option Nat → Option Nat
  | none, b => b
  | some a, none => some a
  | some a, some b => some (max a b)

/-- Modelled from the spec: `LowerBound::update` lives in
`validator_client/slashing_protection/src/lower_bound.rs`, which is not among
the provided sources.  The spec says a set operation "replaces each field with
the larger of the existing value and the new value; an absent field never
overwrites a present one", which is field-wise `optionMax`. -/
def LowerBound.update (a b : LowerBound) : LowerBound :=
  ⟨optionMax a.block_proposal_slot b.block_proposal_slot,
   optionMax a.attestation_source_epoch b.attestation_source_epoch,
   optionMax a.attestation_target_epoch b.attestation_target_epoch⟩

/-- `signed_block.rs::SignedBlock` as read from a row (`SignedBlock::from_row`):
slot and signing root. -/
structure SignedBlock where
  slot : Nat
  signing_root : Nat
deriving DecidableEq

/-- `signed_attestation.rs::SignedAttestation` as read from a row. -/
structure SignedAttestation where
  source_epoch : Nat
  target_epoch : Nat
  signing_root : Nat
deriving DecidableEq

/-- A row of the `signed_blocks` table. -/
structure BlockRow where
  validator_id : Nat
  slot : Nat
  signing_root : Nat
deriving DecidableEq

/-- A row of the `signed_attestations` table. -/
structure AttRow where
  validator_id : Nat
  source_epoch : Nat
  target_epoch : Nat
  signing_root : Nat
deriving DecidableEq

/-- A row of the `lower_bounds` table (`validator_id` is `UNIQUE`). -/
structure LowerBoundRow where
  validator_id : Nat
  bound : LowerBound
deriving DecidableEq

/-- The database state: the four tables.  A validator's internal id is its
index in `validators`. -/
structure SlashingDatabase where
  validators : List Nat
  signed_blocks : List BlockRow
  signed_attestations : List AttRow
  lower_bounds : List LowerBoundRow
deriving DecidableEq

/-- The state `SlashingDatabase::create` sets up: empty tables. -/
def SlashingDatabase.create : SlashingDatabase := ⟨[], [], [], []⟩

/-- `signed_block.rs::InvalidBlock`. -/
inductive InvalidBlock where
  | DoubleBlockProposal (existing : SignedBlock)
  | SlotViolatesLowerBound (block_slot : Nat) (bound_slot : Nat)
deriving DecidableEq

/-- `signed_attestation.rs::InvalidAttestation`. -/
inductive InvalidAttestation where
  | DoubleVote (existing : SignedAttestation)
  | NewSurroundsPrev (prev : SignedAttestation)
  | PrevSurroundsNew (prev : SignedAttestation)
  | SourceExceedsTarget
  | SourceLessThanLowerBound (source_epoch : Nat) (bound_epoch : Nat)
  | TargetLessThanOrEqLowerBound (target_epoch : Nat) (bound_epoch : Nat)
deriving DecidableEq

/-- `lib.rs::NotSafe` (the variants the embedded code can produce). -/
inductive NotSafe where
  | UnregisteredValidator (pubkey : Nat)
  | InvalidBlock (e : InvalidBlock)
  | InvalidAttestation (e : InvalidAttestation)
  | SQLError (msg : String)
deriving DecidableEq

/-- `lib.rs::Safe`. -/
inductive Safe where
  | Valid
  | SameData
deriving DecidableEq

/-- `get_validator_id_opt`: `SELECT id FROM validators WHERE public_key = ?`.
Ids are list indices; the first (least-id) row wins, as in SQLite. -/
def get_validator_id_opt (db : SlashingDatabase) (pubkey : Nat) : Option Nat :=
  db.validators.findIdx? (fun pk => pk == pubkey)

/-- `get_validator_id_in_txn`: missing key means `UnregisteredValidator`. -/
def get_validator_id_in_txn (db : SlashingDatabase) (pubkey : Nat) :
    Except NotSafe Nat :=
  match get_validator_id_opt db pubkey with
  | some id => .ok id
  | none => .error (.UnregisteredValidator pubkey)

/-- `get_lower_bound`: `SELECT ... FROM lower_bounds WHERE validator_id = ?`. -/
def get_lower_bound (db : SlashingDatabase) (validator_id : Nat) :
    Option LowerBound :=
  (db.lower_bounds.find? (fun r => r.validator_id == validator_id)).map
    (fun r => r.bound)

/-- `set_lower_bound`: `REPLACE INTO lower_bounds ...` keyed by the unique
`validator_id`. -/
def set_lower_bound (db : SlashingDatabase) (validator_id : Nat)
    (lower_bound : LowerBound) : SlashingDatabase :=
  { db with lower_bounds :=
      if db.lower_bounds.any (fun r => r.validator_id == validator_id) then
        db.lower_bounds.map (fun r =>
          if r.validator_id == validator_id then ⟨validator_id, lower_bound⟩
          else r)
      else db.lower_bounds ++ [⟨validator_id, lower_bound⟩] }

/-- The same-slot lookup and dispatch at the end of `check_block_proposal`:
`SELECT slot, signing_root FROM signed_blocks WHERE validator_id = ? AND
slot = ?`, then `SameData` / `DoubleBlockProposal` / `Valid`. -/
def same_slot_dispatch (db : SlashingDatabase) (validator_id slot signing_root : Nat) :
    Except NotSafe Safe :=
  match db.signed_blocks.find?
      (fun r => r.validator_id == validator_id && r.slot == slot) with
  | some existing_block =>
      if existing_block.signing_root == signing_root then
        .ok .SameData
      else
        .error (.InvalidBlock (.DoubleBlockProposal
          ⟨existing_block.slot, existing_block.signing_root⟩))
  | none => .ok .Valid

/-- `check_block_proposal`: resolve the validator, enforce the block lower
bound (`slot <= lower_bound_slot` is rejected), then dispatch on the same-slot
lookup. -/
def check_block_proposal (db : SlashingDatabase)
    (validator_pubkey slot signing_root : Nat) : Except NotSafe Safe :=
  match get_validator_id_opt db validator_pubkey with
  | none => .error (.UnregisteredValidator validator_pubkey)
  | some validator_id =>
    match (get_lower_bound db validator_id).bind
        (fun lb => lb.block_proposal_slot) with
    | some lower_bound_slot =>
        if slot ≤ lower_bound_slot then
          .error (.InvalidBlock (.SlotViolatesLowerBound slot lower_bound_slot))
        else same_slot_dispatch db validator_id slot signing_root
    | none => same_slot_dispatch db validator_id slot signing_root

/-- `ORDER BY target_epoch DESC LIMIT 1` over the rows matching `p`: the
matching row with the greatest target epoch (first such row on ties). -/
def select_max_target (p : AttRow → Bool) (rows : List AttRow) : Option AttRow :=
  match rows.filter p with
  | [] => none
  | r :: rest =>
      some (rest.foldl (fun a x => if x.target_epoch > a.target_epoch then x else a) r)

/-- The two surround queries at the end of `check_attestation`, in source
order: first the query for an existing attestation surrounding the new one
(`source_epoch < ? AND target_epoch > ?`), then the query for an existing
attestation surrounded by the new one (`source_epoch > ? AND target_epoch < ?`). -/
def surround_checks (db : SlashingDatabase)
    (validator_id att_source_epoch att_target_epoch : Nat) : Except NotSafe Safe :=
  match select_max_target
      (fun r => r.validator_id == validator_id &&
        r.source_epoch < att_source_epoch && r.target_epoch > att_target_epoch)
      db.signed_attestations with
  | some prev =>
      .error (.InvalidAttestation (.PrevSurroundsNew
        ⟨prev.source_epoch, prev.target_epoch, prev.signing_root⟩))
  | none =>
    match select_max_target
        (fun r => r.validator_id == validator_id &&
          r.source_epoch > att_source_epoch && r.target_epoch < att_target_epoch)
        db.signed_attestations with
    | some prev =>
        .error (.InvalidAttestation (.NewSurroundsPrev
          ⟨prev.source_epoch, prev.target_epoch, prev.signing_root⟩))
    | none => .ok .Valid

/-- The same-target lookup and dispatch in the middle of `check_attestation`:
`SELECT ... FROM signed_attestations WHERE validator_id = ? AND
target_epoch = ?`, then `SameData` / `DoubleVote`, else the surround checks. -/
def same_target_dispatch (db : SlashingDatabase)
    (validator_id att_source_epoch att_target_epoch att_signing_root : Nat) :
    Except NotSafe Safe :=
  match db.signed_attestations.find?
      (fun r => r.validator_id == validator_id && r.target_epoch == att_target_epoch) with
  | some existing_attestation =>
      if existing_attestation.signing_root == att_signing_root then
        .ok .SameData
      else
        .error (.InvalidAttestation (.DoubleVote
          ⟨existing_attestation.source_epoch, existing_attestation.target_epoch,
           existing_attestation.signing_root⟩))
  | none => surround_checks db validator_id att_source_epoch att_target_epoch

/-- The lower-bound section of `check_attestation`: the source check runs
before the target check; `source < bound` and `target <= bound` are rejected. -/
def att_lower_bound_check (lb : Option LowerBound)
    (att_source_epoch att_target_epoch : Nat) : Option InvalidAttestation :=
  match lb with
  | none => none
  | some lower_bound =>
    match lower_bound.attestation_source_epoch with
    | some source_lower_bound =>
        if att_source_epoch < source_lower_bound then
          some (.SourceLessThanLowerBound att_source_epoch source_lower_bound)
        else
          match lower_bound.attestation_target_epoch with
          | some target_lower_bound =>
              if att_target_epoch ≤ target_lower_bound then
                some (.TargetLessThanOrEqLowerBound att_target_epoch target_lower_bound)
              else none
          | none => none
    | none =>
      match lower_bound.attestation_target_epoch with
      | some target_lower_bound =>
          if att_target_epoch ≤ target_lower_bound then
            some (.TargetLessThanOrEqLowerBound att_target_epoch target_lower_bound)
          else none
      | none => none

/-- `check_attestation`: reject `source > target`, resolve the validator,
enforce the two lower bounds, then dispatch on the same-target lookup and the
surround queries. -/
def check_attestation (db : SlashingDatabase)
    (validator_pubkey att_source_epoch att_target_epoch att_signing_root : Nat) :
    Except NotSafe Safe :=
  if att_source_epoch > att_target_epoch then
    .error (.InvalidAttestation .SourceExceedsTarget)
  else
    match get_validator_id_opt db validator_pubkey with
    | none => .error (.UnregisteredValidator validator_pubkey)
    | some validator_id =>
      match att_lower_bound_check (get_lower_bound db validator_id)
          att_source_epoch att_target_epoch with
      | some e => .error (.InvalidAttestation e)
      | none =>
          same_target_dispatch db validator_id att_source_epoch att_target_epoch
            att_signing_root

/-- `insert_block_proposal`: `INSERT INTO signed_blocks ...`.  The
`UNIQUE (validator_id, slot)` constraint makes the insert fail with an SQL
error when a row with the same key already exists. -/
def insert_block_proposal (db : SlashingDatabase)
    (validator_pubkey slot signing_root : Nat) :
    Except NotSafe SlashingDatabase :=
  match get_validator_id_opt db validator_pubkey with
  | none => .error (.UnregisteredValidator validator_pubkey)
  | some validator_id =>
      if db.signed_blocks.any
          (fun r => r.validator_id == validator_id && r.slot == slot) then
        .error (.SQLError "UNIQUE constraint failed: signed_blocks")
      else
        .ok { db with signed_blocks :=
          db.signed_blocks ++ [⟨validator_id, slot, signing_root⟩] }

/-- `insert_attestation`: `INSERT INTO signed_attestations ...` with the
`UNIQUE (validator_id, target_epoch)` constraint. -/
def insert_attestation (db : SlashingDatabase)
    (validator_pubkey att_source_epoch att_target_epoch att_signing_root : Nat) :
    Except NotSafe SlashingDatabase :=
  match get_validator_id_opt db validator_pubkey with
  | none => .error (.UnregisteredValidator validator_pubkey)
  | some validator_id =>
      if db.signed_attestations.any
          (fun r => r.validator_id == validator_id &&
            r.target_epoch == att_target_epoch) then
        .error (.SQLError "UNIQUE constraint failed: signed_attestations")
      else
        .ok { db with signed_attestations :=
          db.signed_attestations ++
            [⟨validator_id, att_source_epoch, att_target_epoch, att_signing_root⟩] }

/-- `check_and_insert_block_signing_root`: inside one exclusive transaction,
run `check_block_proposal`; insert unless the result is `SameData`; commit.
On any error the transaction is dropped without commit, so the caller observes
the unchanged pre-state. -/
def check_and_insert_block_signing_root (db : SlashingDatabase)
    (validator_pubkey slot signing_root : Nat) :
    Except NotSafe Safe × SlashingDatabase :=
  match (check_block_proposal db validator_pubkey slot signing_root).bind
      (fun safe =>
        if safe ≠ Safe.SameData then
          (insert_block_proposal db validator_pubkey slot signing_root).map
            (fun db2 => (safe, db2))
        else .ok (safe, db)) with
  | .ok (safe, db2) => (.ok safe, db2)
  | .error e => (.error e, db)

/-- `check_and_insert_attestation_signing_root`: symmetrical to the block
variant. -/
def check_and_insert_attestation_signing_root (db : SlashingDatabase)
    (validator_pubkey att_source_epoch att_target_epoch att_signing_root : Nat) :
    Except NotSafe Safe × SlashingDatabase :=
  match (check_attestation db validator_pubkey att_source_epoch att_target_epoch
      att_signing_root).bind (fun safe =>
        if safe ≠ Safe.SameData then
          (insert_attestation db validator_pubkey att_source_epoch
              att_target_epoch att_signing_root).map (fun db2 => (safe, db2))
        else .ok (safe, db)) with
  | .ok (safe, db2) => (.ok safe, db2)
  | .error e => (.error e, db)

example : check_and_insert_block_signing_root ⟨[7], [], [], []⟩ 7 5 10 =
    (.ok .Valid, ⟨[7], [⟨0, 5, 10⟩], [], []⟩) := rfl

example :
    check_and_insert_block_signing_root ⟨[7], [⟨0, 5, 10⟩], [], []⟩ 7 5 10 =
    (.ok .SameData, ⟨[7], [⟨0, 5, 10⟩], [], []⟩) := rfl

example :
    check_and_insert_block_signing_root ⟨[7], [⟨0, 5, 10⟩], [], []⟩ 7 5 11 =
    (.error (.InvalidBlock (.DoubleBlockProposal ⟨5, 10⟩)),
     ⟨[7], [⟨0, 5, 10⟩], [], []⟩) := rfl

/-- `register_validators_in_txn`: insert a row for each public key not already
present (`INSERT INTO validators (public_key) VALUES (?)` guarded by
`get_validator_id_opt`). -/
def register_validators_in_txn (db : SlashingDatabase) (public_keys : List Nat) :
    SlashingDatabase :=
  public_keys.foldl (fun d pk =>
    if (get_validator_id_opt d pk).isSome then d
    else { d with validators := d.validators ++ [pk] }) db

/-- `register_validator`: the single-key wrapper (a committed transaction of
its own). -/
def register_validator (db : SlashingDatabase) (validator_pk : Nat) :
    SlashingDatabase :=
  register_validators_in_txn db [validator_pk]

/-- `SUPPORTED_INTERCHANGE_FORMAT_VERSION`. -/
def SUPPORTED_INTERCHANGE_FORMAT_VERSION : Nat := 3

/-- `interchange.rs::InterchangeFormat`. -/
inductive InterchangeFormat where
  | Complete
  | Minimal
deriving DecidableEq

/-- `interchange.rs::InterchangeMetadata`. -/
structure InterchangeMetadata where
  interchange_format : InterchangeFormat
  interchange_format_version : Nat
  genesis_validators_root : Nat
deriving DecidableEq

/-- `interchange.rs::SignedBlock` (aliased `InterchangeBlock` in
`slashing_database.rs`): slot with optional signing root. -/
structure InterchangeBlock where
  slot : Nat
  signing_root : Option Nat
deriving DecidableEq

/-- `interchange.rs::SignedAttestation` (aliased `InterchangeAttestation`). -/
structure InterchangeAttestation where
  source_epoch : Nat
  target_epoch : Nat
  signing_root : Option Nat
deriving DecidableEq

/-- `interchange.rs::CompleteInterchangeData`: one record per validator. -/
structure CompleteInterchangeData where
  pubkey : Nat
  signed_blocks : List InterchangeBlock
  signed_attestations : List InterchangeAttestation
deriving DecidableEq

/-- `interchange.rs::MinimalInterchangeData`: last-signed summaries. -/
structure MinimalInterchangeData where
  pubkey : Nat
  last_signed_block_slot : Option Nat
  last_signed_attestation_source_epoch : Option Nat
  last_signed_attestation_target_epoch : Option Nat
deriving DecidableEq

/-- `interchange.rs::InterchangeData`. -/
inductive InterchangeData where
  | Complete (records : List CompleteInterchangeData)
  | Minimal (records : List MinimalInterchangeData)
deriving DecidableEq

/-- `interchange.rs::Interchange`. -/
structure Interchange where
  metadata : InterchangeMetadata
  data : InterchangeData
deriving DecidableEq

/-- `slashing_database.rs::InterchangeError` (the variants the embedded code
can produce). -/
inductive InterchangeError where
  | UnsupportedVersion (version : Nat)
  | GenesisValidatorsMismatch (interchange_file : Nat) (client : Nat)
  | MinimalAttestationSourceAndTargetInconsistent
  | SQLError (msg : String)
  | NotSafe (e : NotSafe)
deriving DecidableEq

/-- The per-record loop of the Minimal branch of `import_interchange_info`:
resolve the validator id, reject a record where exactly one of the attestation
source/target is present, otherwise merge the record into the stored lower
bound with `LowerBound::update` and continue. -/
def import_minimal_records (db : SlashingDatabase) :
    List MinimalInterchangeData → Except InterchangeError SlashingDatabase
  | [] => .ok db
  | record :: rest =>
    match get_validator_id_opt db record.pubkey with
    | none => .error (.NotSafe (.UnregisteredValidator record.pubkey))
    | some validator_id =>
      if record.last_signed_attestation_source_epoch.isSome !=
          record.last_signed_attestation_target_epoch.isSome then
        .error .MinimalAttestationSourceAndTargetInconsistent
      else
        let lower_bound :=
          ((get_lower_bound db validator_id).getD LowerBound.default).update
            ⟨record.last_signed_block_slot,
             record.last_signed_attestation_source_epoch,
             record.last_signed_attestation_target_epoch⟩
        import_minimal_records (set_lower_bound db validator_id lower_bound) rest

/-- The Minimal branch of `import_interchange_info`, run inside one
transaction: register all the records' validators, then process the records. -/
def import_minimal_txn (db : SlashingDatabase)
    (records : List MinimalInterchangeData) :
    Except InterchangeError SlashingDatabase :=
  import_minimal_records
    (register_validators_in_txn db (records.map (fun r => r.pubkey))) records

/-- The block loop of the Complete branch: each block goes through
`check_and_insert_block_signing_root` (its own committed transaction), an
absent signing root standing for the all-zero hash; the first error aborts,
keeping the state committed so far. -/
def import_complete_blocks (db : SlashingDatabase) (pubkey : Nat) :
    List InterchangeBlock → Except InterchangeError Unit × SlashingDatabase
  | [] => (.ok (), db)
  | b :: rest =>
    match check_and_insert_block_signing_root db pubkey b.slot
        (b.signing_root.getD 0) with
    | (.ok _, db2) => import_complete_blocks db2 pubkey rest
    | (.error e, db2) => (.error (.NotSafe e), db2)

/-- The attestation loop of the Complete branch. -/
def import_complete_atts (db : SlashingDatabase) (pubkey : Nat) :
    List InterchangeAttestation → Except InterchangeError Unit × SlashingDatabase
  | [] => (.ok (), db)
  | a :: rest =>
    match check_and_insert_attestation_signing_root db pubkey a.source_epoch
        a.target_epoch (a.signing_root.getD 0) with
    | (.ok _, db2) => import_complete_atts db2 pubkey rest
    | (.error e, db2) => (.error (.NotSafe e), db2)

/-- The record loop of the Complete branch: register the validator, replay its
blocks, then its attestations.  Not atomic across records: an error keeps all
effects committed before it. -/
def import_complete_records (db : SlashingDatabase) :
    List CompleteInterchangeData → Except InterchangeError Unit × SlashingDatabase
  | [] => (.ok (), db)
  | record :: rest =>
    let db1 := register_validator db record.pubkey
    match import_complete_blocks db1 record.pubkey record.signed_blocks with
    | (.ok _, db2) =>
      match import_complete_atts db2 record.pubkey record.signed_attestations with
      | (.ok _, db3) => import_complete_records db3 rest
      | e => e
    | e => e

/-- `import_interchange_info`: version check, genesis-validators-root check,
then dispatch on the data format.  The Minimal branch is one transaction, so
an error rolls every effect back; the Complete branch commits record by
record. -/
def import_interchange_info (db : SlashingDatabase) (interchange : Interchange)
    (genesis_validators_root : Nat) :
    Except InterchangeError Unit × SlashingDatabase :=
  if interchange.metadata.interchange_format_version ≠
      SUPPORTED_INTERCHANGE_FORMAT_VERSION then
    (.error (.UnsupportedVersion interchange.metadata.interchange_format_version), db)
  else if genesis_validators_root ≠ interchange.metadata.genesis_validators_root then
    (.error (.GenesisValidatorsMismatch interchange.metadata.genesis_validators_root
      genesis_validators_root), db)
  else
    match interchange.data with
    | .Minimal records =>
        match import_minimal_txn db records with
        | .ok db2 => (.ok (), db2)
        | .error e => (.error e, db)
    | .Complete records => import_complete_records db records

/-- The pubkeys owning at least one signed block or attestation, without
duplicates, in ascending order: the key set of the `BTreeMap` built by
`export_complete_interchange_info` (rows whose `validator_id` matches no
validator are dropped by the SQL join). -/
def active_pubkeys (db : SlashingDatabase) : List Nat :=
  List.insertionSort (fun a b => a ≤ b)
    ((db.signed_blocks.filterMap (fun r => db.validators[r.validator_id]?) ++
      db.signed_attestations.filterMap (fun r => db.validators[r.validator_id]?)).dedup)

/-- The `signed_blocks` rows joined to public key `pk`, in table order, as
interchange blocks (signing roots always present on export). -/
def export_blocks_for (db : SlashingDatabase) (pk : Nat) : List InterchangeBlock :=
  (db.signed_blocks.filter (fun r => db.validators[r.validator_id]? == some pk)).map
    (fun r => ⟨r.slot, some r.signing_root⟩)

/-- The `signed_attestations` rows joined to public key `pk`, in table order. -/
def export_atts_for (db : SlashingDatabase) (pk : Nat) : List InterchangeAttestation :=
  (db.signed_attestations.filter
      (fun r => db.validators[r.validator_id]? == some pk)).map
    (fun r => ⟨r.source_epoch, r.target_epoch, some r.signing_root⟩)

/-- The data body of `export_complete_interchange_info`: one record per active
public key, in ascending key order. -/
def export_complete_data (db : SlashingDatabase) : List CompleteInterchangeData :=
  (active_pubkeys db).map (fun pk =>
    ⟨pk, export_blocks_for db pk, export_atts_for db pk⟩)

/-- `export_complete_interchange_info`. -/
def export_complete_interchange_info (db : SlashingDatabase)
    (genesis_validators_root : Nat) : Interchange :=
  ⟨⟨.Complete, SUPPORTED_INTERCHANGE_FORMAT_VERSION, genesis_validators_root⟩,
   .Complete (export_complete_data db)⟩

/-- `get_max_block_slot`: `SELECT MAX(slot) FROM signed_blocks WHERE
validator_id = ?` (`NULL` when the validator has no block). -/
def get_max_block_slot (db : SlashingDatabase) (validator_id : Nat) : Option Nat :=
  (db.signed_blocks.filter (fun r => r.validator_id == validator_id)).foldl
    (fun acc r => optionMax acc (some r.slot)) none

/-- `get_max_source_and_target_epochs`. -/
def get_max_source_and_target_epochs (db : SlashingDatabase) (validator_id : Nat) :
    Option Nat × Option Nat :=
  ((db.signed_attestations.filter (fun r => r.validator_id == validator_id)).foldl
    (fun acc r => (optionMax acc.1 (some r.source_epoch),
                   optionMax acc.2 (some r.target_epoch))) (none, none))

/-- The data body of `export_minimal_interchange_info`: one record per
distinct public key (`GROUP BY public_key` with `MIN(id)`, modelled by the
first index of the key), merging the table maxima with the stored lower
bound. -/
def export_minimal_data (db : SlashingDatabase) : List MinimalInterchangeData :=
  (List.insertionSort (fun a b => a ≤ b) db.validators.dedup).map (fun pk =>
    let validator_id := (get_validator_id_opt db pk).getD 0
    let maxes := get_max_source_and_target_epochs db validator_id
    let lower_bound := LowerBound.default.update
      ⟨get_max_block_slot db validator_id, maxes.1, maxes.2⟩
    let lower_bound :=
      match get_lower_bound db validator_id with
      | some db_lower_bound => lower_bound.update db_lower_bound
      | none => lower_bound
    ⟨pk, lower_bound.block_proposal_slot, lower_bound.attestation_source_epoch,
     lower_bound.attestation_target_epoch⟩)

/-- `export_minimal_interchange_info`. -/
def export_minimal_interchange_info (db : SlashingDatabase)
    (genesis_validators_root : Nat) : Interchange :=
  ⟨⟨.Minimal, SUPPORTED_INTERCHANGE_FORMAT_VERSION, genesis_validators_root⟩,
   .Minimal (export_minimal_data db)⟩

/-- `export_interchange_info`: Minimal when any `lower_bounds` row exists,
Complete otherwise. -/
def export_interchange_info (db : SlashingDatabase)
    (genesis_validators_root : Nat) : Interchange :=
  if db.lower_bounds.length > 0 then
    export_minimal_interchange_info db genesis_validators_root
  else
    export_complete_interchange_info db genesis_validators_root

/-- One live signing call: a block proposal or an attestation, by signing
root. -/
inductive Op where
  | block (pubkey slot signing_root : Nat)
  | att (pubkey source_epoch target_epoch signing_root : Nat)
deriving DecidableEq

/-- Run one `check_and_insert_*` call. -/
def apply_op (db : SlashingDatabase) : Op → Except NotSafe Safe × SlashingDatabase
  | .block pubkey slot signing_root =>
      check_and_insert_block_signing_root db pubkey slot signing_root
  | .att pubkey source_epoch target_epoch signing_root =>
      check_and_insert_attestation_signing_root db pubkey source_epoch
        target_epoch signing_root

/-- Run a sequence of `check_and_insert_*` calls, keeping each call's
committed state. -/
def run_ops (db : SlashingDatabase) (ops : List Op) : SlashingDatabase :=
  ops.foldl (fun d op => (apply_op d op).2) db

/-! ## Helper lemmas -/

/-- `find?` returns the unique element satisfying `p` when there is exactly
one. -/
theorem list_find?_eq_some_of_unique {α : Type} {p : α → Bool} {x : α} :
    ∀ {l : List α}, x ∈ l → p x = true → (∀ y ∈ l, p y = true → y = x) →
      l.find? p = some x := by
  intro l
  induction l with
  | nil => intro h; cases h
  | cons a l ih =>
    intro hmem hx huniq
    by_cases ha : p a = true
    · have hax : a = x := huniq a (List.mem_cons_self a l) ha
      rw [List.find?_cons_of_pos _ ha, hax]
    · have ha' : ¬ p a = true := ha
      rcases List.mem_cons.mp hmem with rfl | hmem2
      · exact absurd hx ha'
      · rw [List.find?_cons_of_neg _ ha']
        exact ih hmem2 hx (fun y hy hpy => huniq y (List.mem_cons_of_mem _ hy) hpy)

/-- C5 helper shape: the commit-or-rollback wrapper returns the pre-state on
error (block form). -/
theorem block_wrapper_error (db : SlashingDatabase) (pk slot root : Nat)
    (e : NotSafe)
    (h : (check_and_insert_block_signing_root db pk slot root).1 = .error e) :
    (check_and_insert_block_signing_root db pk slot root).2 = db := by
  unfold check_and_insert_block_signing_root at h ⊢
  split at h
  · simp at h
  · rfl

/-- C5 helper shape: attestation form. -/
theorem att_wrapper_error (db : SlashingDatabase) (pk src tgt root : Nat)
    (e : NotSafe)
    (h : (check_and_insert_attestation_signing_root db pk src tgt root).1 =
      .error e) :
    (check_and_insert_attestation_signing_root db pk src tgt root).2 = db := by
  unfold check_and_insert_attestation_signing_root at h ⊢
  split at h
  · simp at h
  · rfl

/-- C5: whenever `check_and_insert_block_signing_root` or
`check_and_insert_attestation_signing_root` returns any error — an `Invalid*`
safety error, `UnregisteredValidator`, or a storage error — the committed
state equals the pre-call state: the exclusive transaction is dropped without
commit, so no block row, attestation row, validator row or lower-bound row is
added or modified. -/
theorem check_and_insert_error_rollback (db : SlashingDatabase)
    (pk slot src tgt root : Nat) :
    (∀ e : NotSafe,
      (check_and_insert_block_signing_root db pk slot root).1 = .error e →
      (check_and_insert_block_signing_root db pk slot root).2 = db) ∧
    (∀ e : NotSafe,
      (check_and_insert_attestation_signing_root db pk src tgt root).1 = .error e →
      (check_and_insert_attestation_signing_root db pk src tgt root).2 = db) :=
  ⟨fun e h => block_wrapper_error db pk slot root e h,
   fun e h => att_wrapper_error db pk src tgt root e h⟩

/-- Witness for C5 at a concrete input: on the empty store, both calls fail
with `UnregisteredValidator` and leave the store unchanged. -/
theorem check_and_insert_error_rollback_witness :
    (check_and_insert_block_signing_root SlashingDatabase.create 1 2 3).2 =
      SlashingDatabase.create ∧
    (check_and_insert_attestation_signing_root SlashingDatabase.create 1 2 3 4).2 =
      SlashingDatabase.create :=
  ⟨(check_and_insert_error_rollback SlashingDatabase.create 1 2 2 3 3).1
      (.UnregisteredValidator 1) rfl,
   (check_and_insert_error_rollback SlashingDatabase.create 1 2 2 3 4).2
      (.UnregisteredValidator 1) rfl⟩

/-- When the validator resolves and the lower bound does not restrict `slot`,
`check_block_proposal` is the same-slot dispatch. -/
theorem check_block_proposal_pass_bound (db : SlashingDatabase)
    (pk vid slot root : Nat)
    (hreg : get_validator_id_opt db pk = some vid)
    (hlb : ∀ b, (get_lower_bound db vid).bind
      (fun lb => lb.block_proposal_slot) = some b → b < slot) :
    check_block_proposal db pk slot root = same_slot_dispatch db vid slot root := by
  simp only [check_block_proposal, hreg]
  cases h : (get_lower_bound db vid).bind (fun lb => lb.block_proposal_slot) with
  | none => rfl
  | some b =>
      have hb := hlb b h
      change (if slot ≤ b then Except.error (NotSafe.InvalidBlock
        (InvalidBlock.SlotViolatesLowerBound slot b)) else
          same_slot_dispatch db vid slot root) = same_slot_dispatch db vid slot root
      rw [if_neg (by omega)]

/-- When the validator resolves and no key-conflicting row exists, the insert
succeeds and appends the row. -/
theorem insert_block_proposal_ok (db : SlashingDatabase) (pk vid slot root : Nat)
    (hreg : get_validator_id_opt db pk = some vid)
    (hnone : ∀ r ∈ db.signed_blocks, ¬(r.validator_id = vid ∧ r.slot = slot)) :
    insert_block_proposal db pk slot root =
      .ok { db with signed_blocks := db.signed_blocks ++ [⟨vid, slot, root⟩] } := by
  unfold insert_block_proposal
  rw [hreg]
  have hany : db.signed_blocks.any
      (fun r => r.validator_id == vid && r.slot == slot) = false := by
    rw [List.any_eq_false]
    intro r hr
    have := hnone r hr
    simp only [Bool.and_eq_true, beq_iff_eq]
    tauto
  simp [hany]

/-- Key uniqueness of block rows, in pairwise form. -/
abbrev blocks_key_unique (db : SlashingDatabase) : Prop :=
  db.signed_blocks.Pairwise
    (fun a b => a.validator_id = b.validator_id → a.slot ≠ b.slot)

/-- Under pairwise key uniqueness, two block rows with the same key are the
same row. -/
theorem block_row_eq_of_key (db : SlashingDatabase)
    (h : blocks_key_unique db) {x y : BlockRow}
    (hx : x ∈ db.signed_blocks) (hy : y ∈ db.signed_blocks)
    (hkey : x.validator_id = y.validator_id ∧ x.slot = y.slot) : x = y := by
  by_contra hne
  have hsym : Symmetric
      (fun a b : BlockRow => a.validator_id = b.validator_id → a.slot ≠ b.slot) := by
    intro a b hab hba hslot
    exact hab hba.symm hslot.symm
  exact List.Pairwise.forall hsym h hx hy hne hkey.1 hkey.2

/-- C2: for a registered validator whose block lower bound does not restrict
slot `S`, `check_and_insert_block_signing_root` at `(S, R)` returns `Valid`
when no block row is stored at `(validator, S)`; returns `SameData` when the
stored row at `(validator, S)` carries the same signing root `R`; and returns
`InvalidBlock::DoubleBlockProposal` carrying the existing record when the
stored row carries a different signing root. -/
theorem check_and_insert_block_cases (db : SlashingDatabase)
    (pk vid slot R : Nat)
    (hreg : get_validator_id_opt db pk = some vid)
    (hlb : ∀ b, (get_lower_bound db vid).bind
      (fun lb => lb.block_proposal_slot) = some b → b < slot)
    (huniq : blocks_key_unique db) :
    ((∀ r ∈ db.signed_blocks, ¬(r.validator_id = vid ∧ r.slot = slot)) →
      (check_and_insert_block_signing_root db pk slot R).1 = .ok .Valid) ∧
    (BlockRow.mk vid slot R ∈ db.signed_blocks →
      (check_and_insert_block_signing_root db pk slot R).1 = .ok .SameData) ∧
    (∀ R2, R2 ≠ R → BlockRow.mk vid slot R2 ∈ db.signed_blocks →
      (check_and_insert_block_signing_root db pk slot R).1 =
        .error (.InvalidBlock (.DoubleBlockProposal ⟨slot, R2⟩))) := by
  refine ⟨?_, ?_, ?_⟩
  · intro hnone
    have hfind : db.signed_blocks.find?
        (fun r => r.validator_id == vid && r.slot == slot) = none := by
      rw [List.find?_eq_none]
      intro r hr
      have := hnone r hr
      simp only [Bool.and_eq_true, beq_iff_eq]
      tauto
    have hcheck : check_block_proposal db pk slot R = .ok .Valid := by
      rw [check_block_proposal_pass_bound db pk vid slot R hreg hlb]
      unfold same_slot_dispatch
      rw [hfind]
    unfold check_and_insert_block_signing_root
    rw [hcheck, insert_block_proposal_ok db pk vid slot R hreg hnone]
    rfl
  · intro hmem
    have hfind : db.signed_blocks.find?
        (fun r => r.validator_id == vid && r.slot == slot) =
          some (BlockRow.mk vid slot R) := by
      apply list_find?_eq_some_of_unique hmem (by simp)
      intro y hy hpy
      simp only [Bool.and_eq_true, beq_iff_eq] at hpy
      exact block_row_eq_of_key db huniq hy hmem (by simp [hpy])
    have hcheck : check_block_proposal db pk slot R = .ok .SameData := by
      rw [check_block_proposal_pass_bound db pk vid slot R hreg hlb]
      unfold same_slot_dispatch
      rw [hfind]
      simp
    unfold check_and_insert_block_signing_root
    rw [hcheck]
    rfl
  · intro R2 hne hmem
    have hfind : db.signed_blocks.find?
        (fun r => r.validator_id == vid && r.slot == slot) =
          some (BlockRow.mk vid slot R2) := by
      apply list_find?_eq_some_of_unique hmem (by simp)
      intro y hy hpy
      simp only [Bool.and_eq_true, beq_iff_eq] at hpy
      exact block_row_eq_of_key db huniq hy hmem (by simp [hpy])
    have hcheck : check_block_proposal db pk slot R =
        .error (.InvalidBlock (.DoubleBlockProposal ⟨slot, R2⟩)) := by
      rw [check_block_proposal_pass_bound db pk vid slot R hreg hlb]
      unfold same_slot_dispatch
      rw [hfind]
      simp [hne]
    unfold check_and_insert_block_signing_root
    rw [hcheck]
    rfl

/-- Witness for C2 at a concrete store: validator `7` (id `0`) with one block
row at slot `5`, signing root `9`. -/
theorem check_and_insert_block_cases_witness :
    (check_and_insert_block_signing_root ⟨[7], [⟨0, 5, 9⟩], [], []⟩ 7 5 9).1 =
      .ok .SameData ∧
    (check_and_insert_block_signing_root ⟨[7], [⟨0, 5, 9⟩], [], []⟩ 7 5 8).1 =
      .error (.InvalidBlock (.DoubleBlockProposal ⟨5, 9⟩)) ∧
    (check_and_insert_block_signing_root ⟨[7], [⟨0, 5, 9⟩], [], []⟩ 7 6 9).1 =
      .ok .Valid := by
  refine ⟨?_, ?_, ?_⟩
  · exact (check_and_insert_block_cases ⟨[7], [⟨0, 5, 9⟩], [], []⟩ 7 0 5 9 rfl
      (fun b h => nomatch h) (by decide)).2.1 (by decide)
  · exact (check_and_insert_block_cases ⟨[7], [⟨0, 5, 9⟩], [], []⟩ 7 0 5 8 rfl
      (fun b h => nomatch h) (by decide)).2.2 9 (by decide) (by decide)
  · exact (check_and_insert_block_cases ⟨[7], [⟨0, 5, 9⟩], [], []⟩ 7 0 6 9 rfl
      (fun b h => nomatch h) (by decide)).1 (by decide)

/-- `att_lower_bound_check` computed on a lower bound with both attestation
fields present: the source check runs first. -/
theorem att_lower_bound_check_some (bp : Option Nat) (S T source target : Nat) :
    att_lower_bound_check (some ⟨bp, some S, some T⟩) source target =
      if source < S then some (.SourceLessThanLowerBound source S)
      else if target ≤ T then some (.TargetLessThanOrEqLowerBound target T)
      else none := rfl

/-- For `source ≤ target` and a resolved validator, `check_attestation` is the
lower-bound dispatch followed by the same-target dispatch. -/
theorem check_attestation_unfold (db : SlashingDatabase)
    (pk vid source target root : Nat)
    (hreg : get_validator_id_opt db pk = some vid)
    (hst : source ≤ target) :
    check_attestation db pk source target root =
      match att_lower_bound_check (get_lower_bound db vid) source target with
      | some e => .error (.InvalidAttestation e)
      | none => same_target_dispatch db vid source target root := by
  simp only [check_attestation, hreg]
  rw [if_neg (by omega)]

/-- C4: lower-bound enforcement boundaries.  With a stored block lower bound
`B`, `check_block_proposal` rejects exactly `slot ≤ B` with
`SlotViolatesLowerBound {block_slot, bound_slot}` and `slot = B+1` passes the
bound check (reaching the same-slot dispatch); with attestation bounds
`(min_source = S, min_target = T)`, `check_attestation` rejects
`source < S` with `SourceLessThanLowerBound`, rejects `target ≤ T` (source
check passed) with `TargetLessThanOrEqLowerBound`, and `source = S` together
with `target > T` passes both bound checks (reaching the same-target
dispatch). -/
theorem lower_bound_boundaries (db : SlashingDatabase) (pk vid : Nat)
    (hreg : get_validator_id_opt db pk = some vid) :
    (∀ B slot R, (get_lower_bound db vid).bind
        (fun lb => lb.block_proposal_slot) = some B → slot ≤ B →
      check_block_proposal db pk slot R =
        .error (.InvalidBlock (.SlotViolatesLowerBound slot B))) ∧
    (∀ B R, (get_lower_bound db vid).bind
        (fun lb => lb.block_proposal_slot) = some B →
      check_block_proposal db pk (B + 1) R =
        same_slot_dispatch db vid (B + 1) R) ∧
    (∀ bp S T source target R,
      get_lower_bound db vid = some ⟨bp, some S, some T⟩ →
      source ≤ target → source < S →
      check_attestation db pk source target R =
        .error (.InvalidAttestation (.SourceLessThanLowerBound source S))) ∧
    (∀ bp S T source target R,
      get_lower_bound db vid = some ⟨bp, some S, some T⟩ →
      source ≤ target → S ≤ source → target ≤ T →
      check_attestation db pk source target R =
        .error (.InvalidAttestation (.TargetLessThanOrEqLowerBound target T))) ∧
    (∀ bp S T target R,
      get_lower_bound db vid = some ⟨bp, some S, some T⟩ →
      S ≤ target → T < target →
      check_attestation db pk S target R =
        same_target_dispatch db vid S target R) := by
  refine ⟨?_, ?_, ?_, ?_, ?_⟩
  · intro B slot R hbind hle
    simp only [check_block_proposal, hreg, hbind]
    rw [if_pos hle]
  · intro B R hbind
    simp only [check_block_proposal, hreg, hbind]
    rw [if_neg (by omega)]
  · intro bp S T source target R hlb hst hlt
    rw [check_attestation_unfold db pk vid source target R hreg hst, hlb,
      att_lower_bound_check_some, if_pos hlt]
  · intro bp S T source target R hlb hst hge hle
    rw [check_attestation_unfold db pk vid source target R hreg hst, hlb,
      att_lower_bound_check_some, if_neg (by omega), if_pos hle]
  · intro bp S T target R hlb hst hgt
    rw [check_attestation_unfold db pk vid S target R hreg hst, hlb,
      att_lower_bound_check_some, if_neg (by omega), if_neg (by omega)]

/-- Witness for C4 at a concrete store: validator `7` with lower bound
`(min_block_slot = 100, min_source = 50, min_target = 60)` — slot `100` is
rejected, slot `101` passes the bound check, source `49` is rejected, target
`60` (with source `50`) is rejected, and `(source = 50, target = 61)` passes
both bound checks. -/
theorem lower_bound_boundaries_witness :
    check_block_proposal ⟨[7], [], [], [⟨0, ⟨some 100, some 50, some 60⟩⟩]⟩ 7 100 1 =
      .error (.InvalidBlock (.SlotViolatesLowerBound 100 100)) ∧
    check_block_proposal ⟨[7], [], [], [⟨0, ⟨some 100, some 50, some 60⟩⟩]⟩ 7 101 1 =
      same_slot_dispatch ⟨[7], [], [], [⟨0, ⟨some 100, some 50, some 60⟩⟩]⟩ 0 101 1 ∧
    check_attestation ⟨[7], [], [], [⟨0, ⟨some 100, some 50, some 60⟩⟩]⟩ 7 49 70 1 =
      .error (.InvalidAttestation (.SourceLessThanLowerBound 49 50)) ∧
    check_attestation ⟨[7], [], [], [⟨0, ⟨some 100, some 50, some 60⟩⟩]⟩ 7 50 60 1 =
      .error (.InvalidAttestation (.TargetLessThanOrEqLowerBound 60 60)) ∧
    check_attestation ⟨[7], [], [], [⟨0, ⟨some 100, some 50, some 60⟩⟩]⟩ 7 50 61 1 =
      same_target_dispatch ⟨[7], [], [], [⟨0, ⟨some 100, some 50, some 60⟩⟩]⟩ 0 50 61 1 := by
  have h := lower_bound_boundaries ⟨[7], [], [], [⟨0, ⟨some 100, some 50, some 60⟩⟩]⟩ 7 0 rfl
  exact ⟨h.1 100 100 1 rfl (by omega),
    h.2.1 100 1 rfl,
    h.2.2.1 (some 100) 50 60 49 70 1 rfl (by omega) (by omega),
    h.2.2.2.1 (some 100) 50 60 50 60 1 rfl (by omega) (by omega) (by omega),
    h.2.2.2.2 (some 100) 50 60 61 1 rfl (by omega) (by omega)⟩

/-- Key uniqueness of attestation rows (one row per `(validator, target)`),
in pairwise form. -/
abbrev atts_key_unique (db : SlashingDatabase) : Prop :=
  db.signed_attestations.Pairwise
    (fun a b => a.validator_id = b.validator_id → a.target_epoch ≠ b.target_epoch)

/-- Under pairwise key uniqueness, two attestation rows with the same
`(validator, target)` are the same row. -/
theorem att_row_eq_of_key (db : SlashingDatabase)
    (h : atts_key_unique db) {x y : AttRow}
    (hx : x ∈ db.signed_attestations) (hy : y ∈ db.signed_attestations)
    (hkey : x.validator_id = y.validator_id ∧ x.target_epoch = y.target_epoch) :
    x = y := by
  by_contra hne
  have hsym : Symmetric
      (fun a b : AttRow =>
        a.validator_id = b.validator_id → a.target_epoch ≠ b.target_epoch) := by
    intro a b hab hba htgt
    exact hab hba.symm htgt.symm
  exact List.Pairwise.forall hsym h hx hy hne hkey.1 hkey.2

/-- A `Valid` same-slot dispatch means no row at the key. -/
theorem same_slot_dispatch_valid {db : SlashingDatabase} {vid slot root : Nat}
    (h : same_slot_dispatch db vid slot root = .ok .Valid) :
    ∀ r ∈ db.signed_blocks, ¬(r.validator_id = vid ∧ r.slot = slot) := by
  unfold same_slot_dispatch at h
  cases hf : db.signed_blocks.find?
      (fun r => r.validator_id == vid && r.slot == slot) with
  | some e =>
      rw [hf] at h
      split at h <;> first
      | (split at h <;> simp_all)
      | simp_all
  | none =>
      rw [List.find?_eq_none] at hf
      intro r hr
      have := hf r hr
      simp only [Bool.and_eq_true, beq_iff_eq] at this
      tauto

/-- `select_max_target` is `none` exactly when no row matches. -/
theorem select_max_target_eq_none {p : AttRow → Bool} {rows : List AttRow} :
    select_max_target p rows = none ↔ ∀ r ∈ rows, p r = false := by
  constructor
  · intro h r hr
    cases hp : p r with
    | false => rfl
    | true =>
        have hrf : r ∈ rows.filter p := List.mem_filter.mpr ⟨hr, hp⟩
        unfold select_max_target at h
        cases hfil : rows.filter p with
        | nil => rw [hfil] at hrf; cases hrf
        | cons a rest => rw [hfil] at h; cases h
  · intro hall
    have hfil : rows.filter p = [] :=
      List.filter_eq_nil_iff.mpr (fun a ha => by rw [hall a ha]; simp)
    unfold select_max_target
    rw [hfil]

/-- The fold at the heart of `select_max_target` returns an element of the
candidates with the greatest target epoch. -/
theorem foldl_max_target (l : List AttRow) :
    ∀ a : AttRow,
      (l.foldl (fun acc x =>
        if x.target_epoch > acc.target_epoch then x else acc) a) ∈ a :: l ∧
      ∀ x ∈ a :: l, x.target_epoch ≤
        (l.foldl (fun acc x =>
          if x.target_epoch > acc.target_epoch then x else acc) a).target_epoch := by
  induction l with
  | nil => intro a; simp
  | cons b l ih =>
    intro a
    simp only [List.foldl_cons]
    set c := if b.target_epoch > a.target_epoch then b else a with hc
    obtain ⟨hmem, hbound⟩ := ih c
    have hc_mem : c ∈ [a, b] := by rw [hc]; split <;> simp
    have hca : a.target_epoch ≤ c.target_epoch := by rw [hc]; split <;> omega
    have hcb : b.target_epoch ≤ c.target_epoch := by rw [hc]; split <;> omega
    constructor
    · rcases List.mem_cons.mp hmem with heq | hl
      · rw [heq]
        rcases List.mem_cons.mp hc_mem with h1 | h2
        · rw [h1]; exact List.mem_cons_self _ _
        · simp only [List.mem_singleton] at h2
          rw [h2]
          exact List.mem_cons_of_mem _ (List.mem_cons_self _ _)
      · exact List.mem_cons_of_mem _ (List.mem_cons_of_mem _ hl)
    · intro x hx
      rcases List.mem_cons.mp hx with rfl | hx2
      · exact le_trans hca (hbound c (List.mem_cons_self _ _))
      · rcases List.mem_cons.mp hx2 with rfl | hx3
        · exact le_trans hcb (hbound c (List.mem_cons_self _ _))
        · exact hbound x (List.mem_cons_of_mem _ hx3)

/-- When `select_max_target` returns a row, that row matches and carries the
greatest target epoch among all matching rows. -/
theorem select_max_target_spec {p : AttRow → Bool} {rows : List AttRow}
    {r : AttRow} (h : select_max_target p rows = some r) :
    r ∈ rows ∧ p r = true ∧
      ∀ x ∈ rows, p x = true → x.target_epoch ≤ r.target_epoch := by
  unfold select_max_target at h
  cases hf : rows.filter p with
  | nil => rw [hf] at h; cases h
  | cons a rest =>
    rw [hf] at h
    injection h with h
    obtain ⟨hmem, hbound⟩ := foldl_max_target rest a
    rw [h] at hmem hbound
    have hrfilter : r ∈ rows.filter p := by rw [hf]; exact hmem
    have hr := List.mem_filter.mp hrfilter
    refine ⟨hr.1, hr.2, ?_⟩
    intro x hx hpx
    have : x ∈ rows.filter p := List.mem_filter.mpr ⟨hx, hpx⟩
    rw [hf] at this
    exact hbound x this

/-- Counterexample to C6 as stated: a block accepted before a Minimal import
raised the validator's block lower bound is no longer replayable — the stored
row `(validator 7, slot 5, root 9)` is present, yet re-submitting the very
same message returns `SlotViolatesLowerBound`, not `SameData`. -/
theorem replay_same_data_counterexample :
    BlockRow.mk 0 5 9 ∈
      (import_interchange_info
        (check_and_insert_block_signing_root
          (register_validator SlashingDatabase.create 7) 7 5 9).2
        ⟨⟨.Minimal, 3, 0⟩, .Minimal [⟨7, some 10, none, none⟩]⟩ 0).2.signed_blocks ∧
    get_validator_id_opt
      (import_interchange_info
        (check_and_insert_block_signing_root
          (register_validator SlashingDatabase.create 7) 7 5 9).2
        ⟨⟨.Minimal, 3, 0⟩, .Minimal [⟨7, some 10, none, none⟩]⟩ 0).2 7 = some 0 ∧
    (check_and_insert_block_signing_root
      (import_interchange_info
        (check_and_insert_block_signing_root
          (register_validator SlashingDatabase.create 7) 7 5 9).2
        ⟨⟨.Minimal, 3, 0⟩, .Minimal [⟨7, some 10, none, none⟩]⟩ 0).2 7 5 9).1 =
      .error (.InvalidBlock (.SlotViolatesLowerBound 5 10)) :=
  ⟨by decide, rfl, rfl⟩

/-- C6 (amended): re-submitting a previously accepted message whose key is
not excluded by the validator's *current* lower bound returns `SameData` and
leaves the store unchanged — no new row is inserted.  (Without the
lower-bound proviso the claim fails: a Minimal import can raise the bound
above an accepted message, whose replay then returns the lower-bound
error.) -/
theorem replay_same_data (db : SlashingDatabase) (pk vid : Nat)
    (hreg : get_validator_id_opt db pk = some vid) :
    (∀ slot root,
      (∀ b, (get_lower_bound db vid).bind
        (fun lb => lb.block_proposal_slot) = some b → b < slot) →
      blocks_key_unique db →
      BlockRow.mk vid slot root ∈ db.signed_blocks →
      check_and_insert_block_signing_root db pk slot root = (.ok .SameData, db)) ∧
    (∀ source target root,
      source ≤ target →
      att_lower_bound_check (get_lower_bound db vid) source target = none →
      atts_key_unique db →
      AttRow.mk vid source target root ∈ db.signed_attestations →
      check_and_insert_attestation_signing_root db pk source target root =
        (.ok .SameData, db)) := by
  constructor
  · intro slot root hlb huniq hmem
    have hfind : db.signed_blocks.find?
        (fun r => r.validator_id == vid && r.slot == slot) =
          some (BlockRow.mk vid slot root) := by
      apply list_find?_eq_some_of_unique hmem (by simp)
      intro y hy hpy
      simp only [Bool.and_eq_true, beq_iff_eq] at hpy
      exact block_row_eq_of_key db huniq hy hmem (by simp [hpy])
    have hcheck : check_block_proposal db pk slot root = .ok .SameData := by
      rw [check_block_proposal_pass_bound db pk vid slot root hreg hlb]
      unfold same_slot_dispatch
      rw [hfind]
      simp
    unfold check_and_insert_block_signing_root
    rw [hcheck]
    rfl
  · intro source target root hst hlbnone huniq hmem
    have hfind : db.signed_attestations.find?
        (fun r => r.validator_id == vid && r.target_epoch == target) =
          some (AttRow.mk vid source target root) := by
      apply list_find?_eq_some_of_unique hmem (by simp)
      intro y hy hpy
      simp only [Bool.and_eq_true, beq_iff_eq] at hpy
      exact att_row_eq_of_key db huniq hy hmem (by simp [hpy])
    have hcheck : check_attestation db pk source target root = .ok .SameData := by
      rw [check_attestation_unfold db pk vid source target root hreg hst, hlbnone]
      show same_target_dispatch db vid source target root = .ok .SameData
      unfold same_target_dispatch
      rw [hfind]
      simp
    unfold check_and_insert_attestation_signing_root
    rw [hcheck]
    rfl

/-- Witness for the amended C6 at a concrete store with one block and one
attestation and no lower bound: both replays return `SameData` and leave the
store unchanged. -/
theorem replay_same_data_witness :
    check_and_insert_block_signing_root
        ⟨[7], [⟨0, 5, 9⟩], [⟨0, 2, 3, 4⟩], []⟩ 7 5 9 =
      (.ok .SameData, ⟨[7], [⟨0, 5, 9⟩], [⟨0, 2, 3, 4⟩], []⟩) ∧
    check_and_insert_attestation_signing_root
        ⟨[7], [⟨0, 5, 9⟩], [⟨0, 2, 3, 4⟩], []⟩ 7 2 3 4 =
      (.ok .SameData, ⟨[7], [⟨0, 5, 9⟩], [⟨0, 2, 3, 4⟩], []⟩) := by
  have h := replay_same_data ⟨[7], [⟨0, 5, 9⟩], [⟨0, 2, 3, 4⟩], []⟩ 7 0 rfl
  exact ⟨h.1 5 9 (fun b hb => nomatch hb) (by decide) (by decide),
         h.2 2 3 4 (by omega) rfl (by decide) (by decide)⟩

/-- When the earlier checks pass (validator resolved, `source ≤ target`,
lower bounds pass, no stored row at the new target), `check_attestation`
reduces to the two surround queries. -/
theorem check_attestation_reduces_to_surround (db : SlashingDatabase)
    (pk vid source target root : Nat)
    (hreg : get_validator_id_opt db pk = some vid)
    (hst : source ≤ target)
    (hlbnone : att_lower_bound_check (get_lower_bound db vid) source target = none)
    (hnotarget : ∀ r ∈ db.signed_attestations,
      r.validator_id = vid → r.target_epoch ≠ target) :
    check_attestation db pk source target root =
      surround_checks db vid source target := by
  rw [check_attestation_unfold db pk vid source target root hreg hst, hlbnone]
  show same_target_dispatch db vid source target root = _
  unfold same_target_dispatch
  have hfind : db.signed_attestations.find?
      (fun r => r.validator_id == vid && r.target_epoch == target) = none := by
    rw [List.find?_eq_none]
    intro r hr
    have := hnotarget r hr
    simp only [Bool.and_eq_true, beq_iff_eq]
    tauto
  rw [hfind]

/-- C3: surround-vote detection.  For a new attestation `(source, target)`
that passes the earlier checks, `check_attestation` returns
`PrevSurroundsNew` whenever some stored attestation of the validator has
`source_epoch < source` and `target_epoch > target` (even if surrounded rows
also exist: the prev-surrounds-new query runs first), and the reported row
has the greatest target epoch among all such rows; when no row surrounds the
new attestation but some stored row has `source_epoch > source` and
`target_epoch < target`, it returns `NewSurroundsPrev`, again reporting a
row of greatest target epoch. -/
theorem surround_detection (db : SlashingDatabase)
    (pk vid source target root : Nat)
    (hreg : get_validator_id_opt db pk = some vid)
    (hst : source ≤ target)
    (hlbnone : att_lower_bound_check (get_lower_bound db vid) source target = none)
    (hnotarget : ∀ r ∈ db.signed_attestations,
      r.validator_id = vid → r.target_epoch ≠ target) :
    ((∃ r ∈ db.signed_attestations, r.validator_id = vid ∧
        r.source_epoch < source ∧ target < r.target_epoch) →
      ∃ prev ∈ db.signed_attestations, prev.validator_id = vid ∧
        prev.source_epoch < source ∧ target < prev.target_epoch ∧
        check_attestation db pk source target root =
          .error (.InvalidAttestation (.PrevSurroundsNew
            ⟨prev.source_epoch, prev.target_epoch, prev.signing_root⟩)) ∧
        ∀ x ∈ db.signed_attestations, x.validator_id = vid →
          x.source_epoch < source → target < x.target_epoch →
          x.target_epoch ≤ prev.target_epoch) ∧
    ((∀ r ∈ db.signed_attestations, ¬(r.validator_id = vid ∧
        r.source_epoch < source ∧ target < r.target_epoch)) →
      (∃ r ∈ db.signed_attestations, r.validator_id = vid ∧
        source < r.source_epoch ∧ r.target_epoch < target) →
      ∃ prev ∈ db.signed_attestations, prev.validator_id = vid ∧
        source < prev.source_epoch ∧ prev.target_epoch < target ∧
        check_attestation db pk source target root =
          .error (.InvalidAttestation (.NewSurroundsPrev
            ⟨prev.source_epoch, prev.target_epoch, prev.signing_root⟩)) ∧
        ∀ x ∈ db.signed_attestations, x.validator_id = vid →
          source < x.source_epoch → x.target_epoch < target →
          x.target_epoch ≤ prev.target_epoch) := by
  have hred := check_attestation_reduces_to_surround db pk vid source target root
    hreg hst hlbnone hnotarget
  constructor
  · intro ⟨r, hr, hvid, hsrc, htgt⟩
    cases hsel : select_max_target
        (fun x => x.validator_id == vid &&
          x.source_epoch < source && x.target_epoch > target)
        db.signed_attestations with
    | none =>
        have hfalse := select_max_target_eq_none.mp hsel r hr
        have htrue : (r.validator_id == vid && decide (r.source_epoch < source) &&
            decide (r.target_epoch > target)) = true := by
          simp only [Bool.and_eq_true, beq_iff_eq, decide_eq_true_eq]
          exact ⟨⟨hvid, hsrc⟩, htgt⟩
        rw [htrue] at hfalse
        cases hfalse
    | some prev =>
        obtain ⟨hpmem, hp, hmax⟩ := select_max_target_spec hsel
        simp only [Bool.and_eq_true, beq_iff_eq, decide_eq_true_eq] at hp
        refine ⟨prev, hpmem, hp.1.1, hp.1.2, hp.2, ?_, ?_⟩
        · rw [hred]
          unfold surround_checks
          rw [hsel]
        · intro x hx hxv hxs hxt
          exact hmax x hx (by simp only [Bool.and_eq_true, beq_iff_eq,
            decide_eq_true_eq]; exact ⟨⟨hxv, hxs⟩, hxt⟩)
  · intro hnone ⟨r, hr, hvid, hsrc, htgt⟩
    have hsel1 : select_max_target
        (fun x => x.validator_id == vid &&
          x.source_epoch < source && x.target_epoch > target)
        db.signed_attestations = none := by
      rw [select_max_target_eq_none]
      intro x hx
      rw [Bool.eq_false_iff]
      intro htrue
      simp only [Bool.and_eq_true, beq_iff_eq, decide_eq_true_eq] at htrue
      exact hnone x hx ⟨htrue.1.1, htrue.1.2, htrue.2⟩
    cases hsel2 : select_max_target
        (fun x => x.validator_id == vid &&
          x.source_epoch > source && x.target_epoch < target)
        db.signed_attestations with
    | none =>
        have hfalse := select_max_target_eq_none.mp hsel2 r hr
        have htrue : (r.validator_id == vid && decide (r.source_epoch > source) &&
            decide (r.target_epoch < target)) = true := by
          simp only [Bool.and_eq_true, beq_iff_eq, decide_eq_true_eq]
          exact ⟨⟨hvid, hsrc⟩, htgt⟩
        rw [htrue] at hfalse
        cases hfalse
    | some prev =>
        obtain ⟨hpmem, hp, hmax⟩ := select_max_target_spec hsel2
        simp only [Bool.and_eq_true, beq_iff_eq, decide_eq_true_eq] at hp
        refine ⟨prev, hpmem, hp.1.1, hp.1.2, hp.2, ?_, ?_⟩
        · rw [hred]
          unfold surround_checks
          rw [hsel1, hsel2]
        · intro x hx hxv hxs hxt
          exact hmax x hx (by simp only [Bool.and_eq_true, beq_iff_eq,
            decide_eq_true_eq]; exact ⟨⟨hxv, hxs⟩, hxt⟩)

/-- Witness for C3, following the spec's scenario 2: with stored attestation
`(source 4, target 8, root 1)`, the new vote `(5, 7)` is reported as
`PrevSurroundsNew` and the new vote `(3, 9)` as `NewSurroundsPrev`, both
carrying the stored record. -/
theorem surround_detection_witness :
    check_attestation ⟨[7], [], [⟨0, 4, 8, 1⟩], []⟩ 7 5 7 2 =
      .error (.InvalidAttestation (.PrevSurroundsNew ⟨4, 8, 1⟩)) ∧
    check_attestation ⟨[7], [], [⟨0, 4, 8, 1⟩], []⟩ 7 3 9 2 =
      .error (.InvalidAttestation (.NewSurroundsPrev ⟨4, 8, 1⟩)) := by
  constructor
  · obtain ⟨prev, hmem, -, -, -, heq, -⟩ :=
      (surround_detection ⟨[7], [], [⟨0, 4, 8, 1⟩], []⟩ 7 0 5 7 2 rfl
        (by omega) rfl (by decide)).1
        ⟨⟨0, 4, 8, 1⟩, by decide, by decide, by decide, by decide⟩
    have : prev = AttRow.mk 0 4 8 1 := by
      simpa using hmem
    rw [this] at heq
    exact heq
  · obtain ⟨prev, hmem, -, -, -, heq, -⟩ :=
      (surround_detection ⟨[7], [], [⟨0, 4, 8, 1⟩], []⟩ 7 0 3 9 2 rfl
        (by omega) rfl (by decide)).2
        (by decide)
        ⟨⟨0, 4, 8, 1⟩, by decide, by decide, by decide, by decide⟩
    have : prev = AttRow.mk 0 4 8 1 := by
      simpa using hmem
    rw [this] at heq
    exact heq

/-- Case characterization of the block check-and-insert wrapper. -/
theorem check_and_insert_block_eq (db : SlashingDatabase) (pk slot root : Nat) :
    check_and_insert_block_signing_root db pk slot root =
      match check_block_proposal db pk slot root with
      | .error e => (.error e, db)
      | .ok .SameData => (.ok .SameData, db)
      | .ok .Valid =>
        match insert_block_proposal db pk slot root with
        | .ok db2 => (.ok .Valid, db2)
        | .error e => (.error e, db) := by
  unfold check_and_insert_block_signing_root
  cases check_block_proposal db pk slot root with
  | error e => rfl
  | ok safe =>
      cases safe with
      | Valid => cases insert_block_proposal db pk slot root <;> rfl
      | SameData => rfl

/-- Case characterization of the attestation check-and-insert wrapper. -/
theorem check_and_insert_att_eq (db : SlashingDatabase) (pk src tgt root : Nat) :
    check_and_insert_attestation_signing_root db pk src tgt root =
      match check_attestation db pk src tgt root with
      | .error e => (.error e, db)
      | .ok .SameData => (.ok .SameData, db)
      | .ok .Valid =>
        match insert_attestation db pk src tgt root with
        | .ok db2 => (.ok .Valid, db2)
        | .error e => (.error e, db) := by
  unfold check_and_insert_attestation_signing_root
  cases check_attestation db pk src tgt root with
  | error e => rfl
  | ok safe =>
      cases safe with
      | Valid => cases insert_attestation db pk src tgt root <;> rfl
      | SameData => rfl

/-- The pure block checker never produces a storage error. -/
theorem check_block_proposal_no_sql (db : SlashingDatabase)
    (pk slot root : Nat) :
    ∀ m, check_block_proposal db pk slot root ≠ .error (.SQLError m) := by
  intro m h
  unfold check_block_proposal at h
  split at h
  · simp at h
  · split at h
    · split at h
      · simp at h
      · unfold same_slot_dispatch at h
        split at h
        · split at h <;> simp_all
        · simp at h
    · unfold same_slot_dispatch at h
      split at h
      · split at h <;> simp_all
      · simp at h

/-- The pure attestation checker never produces a storage error. -/
theorem check_attestation_no_sql (db : SlashingDatabase)
    (pk src tgt root : Nat) :
    ∀ m, check_attestation db pk src tgt root ≠ .error (.SQLError m) := by
  intro m h
  unfold check_attestation at h
  split at h
  · simp at h
  · split at h
    · simp at h
    · split at h
      · simp at h
      · unfold same_target_dispatch at h
        split at h
        · split at h <;> simp_all
        · unfold surround_checks at h
          split at h
          · simp at h
          · split at h <;> simp_all

/-- A `Valid` block check yields a successful insert appending the row. -/
theorem insert_after_block_valid (db : SlashingDatabase) (pk slot root : Nat)
    (h : check_block_proposal db pk slot root = .ok .Valid) :
    ∃ vid, get_validator_id_opt db pk = some vid ∧
      (∀ r ∈ db.signed_blocks, ¬(r.validator_id = vid ∧ r.slot = slot)) ∧
      insert_block_proposal db pk slot root =
        .ok { db with signed_blocks :=
          db.signed_blocks ++ [⟨vid, slot, root⟩] } := by
  unfold check_block_proposal at h
  cases hv : get_validator_id_opt db pk with
  | none => rw [hv] at h; cases h
  | some vid =>
      simp only [hv] at h
      have hnorow : ∀ r ∈ db.signed_blocks,
          ¬(r.validator_id = vid ∧ r.slot = slot) := by
        split at h
        · split at h
          · cases h
          · exact same_slot_dispatch_valid h
        · exact same_slot_dispatch_valid h
      exact ⟨vid, rfl, hnorow, insert_block_proposal_ok db pk vid slot root hv hnorow⟩

/-- A `Valid` same-target dispatch means: no row at the target, and no stored
row of the validator surrounds or is surrounded by the new vote. -/
theorem same_target_dispatch_valid {db : SlashingDatabase} {vid s t root : Nat}
    (h : same_target_dispatch db vid s t root = .ok .Valid) :
    ∀ r ∈ db.signed_attestations, r.validator_id = vid →
      r.target_epoch ≠ t ∧ ¬(r.source_epoch < s ∧ t < r.target_epoch) ∧
      ¬(s < r.source_epoch ∧ r.target_epoch < t) := by
  unfold same_target_dispatch at h
  cases hf : db.signed_attestations.find?
      (fun r => r.validator_id == vid && r.target_epoch == t) with
  | some e =>
      rw [hf] at h
      split at h <;> first
      | (split at h <;> simp_all)
      | simp_all
  | none =>
      rw [hf] at h
      rw [List.find?_eq_none] at hf
      unfold surround_checks at h
      cases hs1 : select_max_target
          (fun r => r.validator_id == vid &&
            r.source_epoch < s && r.target_epoch > t)
          db.signed_attestations with
      | some prev => rw [hs1] at h; cases h
      | none =>
          rw [hs1] at h
          cases hs2 : select_max_target
              (fun r => r.validator_id == vid &&
                r.source_epoch > s && r.target_epoch < t)
              db.signed_attestations with
          | some prev => rw [hs2] at h; cases h
          | none =>
              intro r hr hvid
              have h1 := hf r hr
              have h2 := select_max_target_eq_none.mp hs1 r hr
              have h3 := select_max_target_eq_none.mp hs2 r hr
              simp only [hvid, Bool.and_eq_true, beq_iff_eq, beq_self_eq_true,
                true_and, decide_eq_true_eq, Bool.and_eq_false_iff,
                decide_eq_false_iff_not] at h1 h2 h3
              refine ⟨fun ht => h1 (by simp [ht]), ?_, ?_⟩
              · intro ⟨ha, hb⟩
                rcases h2 with h2 | h2
                · rcases h2 with h2 | h2
                  · simp at h2
                  · exact h2 ha
                · exact h2 hb
              · intro ⟨ha, hb⟩
                rcases h3 with h3 | h3
                · rcases h3 with h3 | h3
                  · simp at h3
                  · exact h3 ha
                · exact h3 hb

/-- A `Valid` attestation check: the vote is well-formed, the validator
resolves, and no stored row of the validator conflicts with it; the insert
succeeds and appends the row. -/
theorem insert_after_att_valid (db : SlashingDatabase) (pk s t root : Nat)
    (h : check_attestation db pk s t root = .ok .Valid) :
    s ≤ t ∧ ∃ vid, get_validator_id_opt db pk = some vid ∧
      (∀ r ∈ db.signed_attestations, r.validator_id = vid →
        r.target_epoch ≠ t ∧ ¬(r.source_epoch < s ∧ t < r.target_epoch) ∧
        ¬(s < r.source_epoch ∧ r.target_epoch < t)) ∧
      insert_attestation db pk s t root =
        .ok { db with signed_attestations :=
          db.signed_attestations ++ [⟨vid, s, t, root⟩] } := by
  unfold check_attestation at h
  split at h
  · cases h
  · have hst : s ≤ t := by omega
    refine ⟨hst, ?_⟩
    cases hv : get_validator_id_opt db pk with
    | none => rw [hv] at h; cases h
    | some vid =>
        simp only [hv] at h
        split at h
        · cases h
        · have hfacts := same_target_dispatch_valid h
          refine ⟨vid, rfl, hfacts, ?_⟩
          unfold insert_attestation
          rw [hv]
          have hany : db.signed_attestations.any
              (fun r => r.validator_id == vid && r.target_epoch == t) = false := by
            rw [List.any_eq_false]
            intro r hr
            simp only [Bool.and_eq_true, beq_iff_eq]
            intro ⟨h1, h2⟩
            exact (hfacts r hr h1).1 h2
          simp [hany]

/-- With a stored row at the same `(validator, slot)` key (and the earlier
checks passing), the block check dispatches on the signing root. -/
theorem check_block_dispatch_row (db : SlashingDatabase)
    (pk vid slot root R2 : Nat)
    (hreg : get_validator_id_opt db pk = some vid)
    (hlb : ∀ b, (get_lower_bound db vid).bind
      (fun lb => lb.block_proposal_slot) = some b → b < slot)
    (huniq : blocks_key_unique db)
    (hmem : BlockRow.mk vid slot R2 ∈ db.signed_blocks) :
    check_block_proposal db pk slot root =
      if R2 == root then .ok .SameData
      else .error (.InvalidBlock (.DoubleBlockProposal ⟨slot, R2⟩)) := by
  have hfind : db.signed_blocks.find?
      (fun r => r.validator_id == vid && r.slot == slot) =
        some (BlockRow.mk vid slot R2) := by
    apply list_find?_eq_some_of_unique hmem (by simp)
    intro y hy hpy
    simp only [Bool.and_eq_true, beq_iff_eq] at hpy
    exact block_row_eq_of_key db huniq hy hmem (by simp [hpy])
  rw [check_block_proposal_pass_bound db pk vid slot root hreg hlb]
  unfold same_slot_dispatch
  rw [hfind]

/-- With a stored row at the same `(validator, target)` key (and the earlier
checks passing), the attestation check dispatches on the signing root. -/
theorem check_att_dispatch_row (db : SlashingDatabase)
    (pk vid src tgt root s2 R2 : Nat)
    (hreg : get_validator_id_opt db pk = some vid)
    (hst : src ≤ tgt)
    (hlbnone : att_lower_bound_check (get_lower_bound db vid) src tgt = none)
    (huniq : atts_key_unique db)
    (hmem : AttRow.mk vid s2 tgt R2 ∈ db.signed_attestations) :
    check_attestation db pk src tgt root =
      if R2 == root then .ok .SameData
      else .error (.InvalidAttestation (.DoubleVote ⟨s2, tgt, R2⟩)) := by
  have hfind : db.signed_attestations.find?
      (fun r => r.validator_id == vid && r.target_epoch == tgt) =
        some (AttRow.mk vid s2 tgt R2) := by
    apply list_find?_eq_some_of_unique hmem (by simp)
    intro y hy hpy
    simp only [Bool.and_eq_true, beq_iff_eq] at hpy
    exact att_row_eq_of_key db huniq hy hmem (by simp [hpy])
  rw [check_attestation_unfold db pk vid src tgt root hreg hst, hlbnone]
  show same_target_dispatch db vid src tgt root = _
  unfold same_target_dispatch
  rw [hfind]

/-- C9: a duplicate-key insert can never surface as a raw storage error.  The
check runs in the same transaction just before the insert, so (i) neither
wrapper ever returns `SQLError`, and (ii) whenever a row already exists at the
new message's key — the situation in which the `UNIQUE` constraint would fire
— the call returns `SameData` or the corresponding safety error
(`DoubleBlockProposal` / `DoubleVote`). -/
theorem constraint_violation_mapping (db : SlashingDatabase)
    (pk slot src tgt root : Nat) :
    (∀ m, (check_and_insert_block_signing_root db pk slot root).1 ≠
      .error (.SQLError m)) ∧
    (∀ m, (check_and_insert_attestation_signing_root db pk src tgt root).1 ≠
      .error (.SQLError m)) ∧
    (∀ vid, get_validator_id_opt db pk = some vid →
      (∀ b, (get_lower_bound db vid).bind
        (fun lb => lb.block_proposal_slot) = some b → b < slot) →
      blocks_key_unique db →
      (∃ r ∈ db.signed_blocks, r.validator_id = vid ∧ r.slot = slot) →
      (check_and_insert_block_signing_root db pk slot root).1 = .ok .SameData ∨
      ∃ R2, R2 ≠ root ∧
        (check_and_insert_block_signing_root db pk slot root).1 =
          .error (.InvalidBlock (.DoubleBlockProposal ⟨slot, R2⟩))) ∧
    (∀ vid, get_validator_id_opt db pk = some vid →
      src ≤ tgt →
      att_lower_bound_check (get_lower_bound db vid) src tgt = none →
      atts_key_unique db →
      (∃ r ∈ db.signed_attestations, r.validator_id = vid ∧
        r.target_epoch = tgt) →
      (check_and_insert_attestation_signing_root db pk src tgt root).1 =
        .ok .SameData ∨
      ∃ s2 R2, R2 ≠ root ∧
        (check_and_insert_attestation_signing_root db pk src tgt root).1 =
          .error (.InvalidAttestation (.DoubleVote ⟨s2, tgt, R2⟩))) := by
  refine ⟨?_, ?_, ?_, ?_⟩
  · intro m h
    rw [check_and_insert_block_eq] at h
    split at h
    · rename_i e heq
      replace h : (Except.error e : Except NotSafe Safe) = .error (.SQLError m) := h
      injection h with h2
      rw [h2] at heq
      exact check_block_proposal_no_sql db pk slot root m heq
    · replace h : (Except.ok Safe.SameData : Except NotSafe Safe) =
        .error (.SQLError m) := h
      cases h
    · rename_i heq
      split at h
      · replace h : (Except.ok Safe.Valid : Except NotSafe Safe) =
          .error (.SQLError m) := h
        cases h
      · rename_i e heq2
        obtain ⟨vid, hvid, hnorow, hins⟩ :=
          insert_after_block_valid db pk slot root heq
        rw [hins] at heq2
        cases heq2
  · intro m h
    rw [check_and_insert_att_eq] at h
    split at h
    · rename_i e heq
      replace h : (Except.error e : Except NotSafe Safe) = .error (.SQLError m) := h
      injection h with h2
      rw [h2] at heq
      exact check_attestation_no_sql db pk src tgt root m heq
    · replace h : (Except.ok Safe.SameData : Except NotSafe Safe) =
        .error (.SQLError m) := h
      cases h
    · rename_i heq
      split at h
      · replace h : (Except.ok Safe.Valid : Except NotSafe Safe) =
          .error (.SQLError m) := h
        cases h
      · rename_i e heq2
        obtain ⟨-, vid, hvid, hfacts, hins⟩ :=
          insert_after_att_valid db pk src tgt root heq
        rw [hins] at heq2
        cases heq2
  · intro vid hreg hlb huniq ⟨r, hr, hvid_r, hslot⟩
    have hmem : BlockRow.mk vid slot r.signing_root ∈ db.signed_blocks := by
      have : r = BlockRow.mk vid slot r.signing_root := by
        cases r
        simp_all
      rw [← this]
      exact hr
    have hdisp := check_block_dispatch_row db pk vid slot root r.signing_root
      hreg hlb huniq hmem
    by_cases hroot : r.signing_root = root
    · left
      rw [check_and_insert_block_eq, hdisp, if_pos (by simp [hroot])]
    · right
      refine ⟨r.signing_root, hroot, ?_⟩
      rw [check_and_insert_block_eq, hdisp, if_neg (by simp [hroot])]
  · intro vid hreg hst hlbnone huniq ⟨r, hr, hvid_r, htgt⟩
    have hmem : AttRow.mk vid r.source_epoch tgt r.signing_root ∈
        db.signed_attestations := by
      have : r = AttRow.mk vid r.source_epoch tgt r.signing_root := by
        cases r
        simp_all
      rw [← this]
      exact hr
    have hdisp := check_att_dispatch_row db pk vid src tgt root r.source_epoch
      r.signing_root hreg hst hlbnone huniq hmem
    by_cases hroot : r.signing_root = root
    · left
      rw [check_and_insert_att_eq, hdisp, if_pos (by simp [hroot])]
    · right
      refine ⟨r.source_epoch, r.signing_root, hroot, ?_⟩
      rw [check_and_insert_att_eq, hdisp, if_neg (by simp [hroot])]

/-- Witness for C9 at a concrete store with a stored block and attestation:
a conflicting re-submission returns the safety error, not `SQLError`. -/
theorem constraint_violation_mapping_witness :
    (∀ m, (check_and_insert_block_signing_root
      ⟨[7], [⟨0, 5, 9⟩], [⟨0, 2, 3, 4⟩], []⟩ 7 5 8).1 ≠
        .error (.SQLError m)) ∧
    ((check_and_insert_block_signing_root
      ⟨[7], [⟨0, 5, 9⟩], [⟨0, 2, 3, 4⟩], []⟩ 7 5 8).1 = .ok .SameData ∨
      ∃ R2, R2 ≠ 8 ∧
        (check_and_insert_block_signing_root
          ⟨[7], [⟨0, 5, 9⟩], [⟨0, 2, 3, 4⟩], []⟩ 7 5 8).1 =
            .error (.InvalidBlock (.DoubleBlockProposal ⟨5, R2⟩))) := by
  have h := constraint_violation_mapping ⟨[7], [⟨0, 5, 9⟩], [⟨0, 2, 3, 4⟩], []⟩
    7 5 2 3 8
  exact ⟨h.1, h.2.2.1 0 rfl (fun b hb => nomatch hb) (by decide)
    ⟨⟨0, 5, 9⟩, by decide, rfl, rfl⟩⟩

/-- Pairwise non-slashability of the attestation table: per validator,
distinct targets (hence no double vote) and no strict surround in either
direction. -/
abbrev atts_non_slashable (db : SlashingDatabase) : Prop :=
  db.signed_attestations.Pairwise (fun a b =>
    a.validator_id = b.validator_id →
      a.target_epoch ≠ b.target_epoch ∧
      ¬(a.source_epoch < b.source_epoch ∧ b.target_epoch < a.target_epoch) ∧
      ¬(b.source_epoch < a.source_epoch ∧ a.target_epoch < b.target_epoch))

/-- The model's aggregate invariant: the stored history is non-slashable in
itself. -/
abbrev StoreInv (db : SlashingDatabase) : Prop :=
  blocks_key_unique db ∧ atts_non_slashable db

/-- Non-slashability subsumes per-target key uniqueness. -/
theorem atts_non_slashable_key_unique {db : SlashingDatabase}
    (h : atts_non_slashable db) : atts_key_unique db :=
  h.imp (fun hab hvid => (hab hvid).1)

/-- One `check_and_insert_*` call preserves the invariant. -/
theorem apply_op_preserves_inv (db : SlashingDatabase) (op : Op)
    (h : StoreInv db) : StoreInv (apply_op db op).2 := by
  cases op with
  | block pk slot root =>
      show StoreInv (check_and_insert_block_signing_root db pk slot root).2
      rw [check_and_insert_block_eq]
      split
      · exact h
      · exact h
      · rename_i heq
        split
        · rename_i db2 heq2
          obtain ⟨vid, hvid, hnorow, hins⟩ :=
            insert_after_block_valid db pk slot root heq
          rw [hins] at heq2
          injection heq2 with heq3
          rw [← heq3]
          refine ⟨?_, h.2⟩
          show List.Pairwise _ (db.signed_blocks ++ [BlockRow.mk vid slot root])
          rw [List.pairwise_append]
          refine ⟨h.1, by simp, ?_⟩
          intro a ha b hb
          rw [List.mem_singleton] at hb
          subst hb
          intro hv hs
          exact hnorow a ha ⟨hv, hs⟩
        · exact h
  | att pk src tgt root =>
      show StoreInv (check_and_insert_attestation_signing_root db pk src tgt root).2
      rw [check_and_insert_att_eq]
      split
      · exact h
      · exact h
      · rename_i heq
        split
        · rename_i db2 heq2
          obtain ⟨hst, vid, hvid, hfacts, hins⟩ :=
            insert_after_att_valid db pk src tgt root heq
          rw [hins] at heq2
          injection heq2 with heq3
          rw [← heq3]
          refine ⟨h.1, ?_⟩
          show List.Pairwise _
            (db.signed_attestations ++ [AttRow.mk vid src tgt root])
          rw [List.pairwise_append]
          refine ⟨h.2, by simp, ?_⟩
          intro a ha b hb
          rw [List.mem_singleton] at hb
          subst hb
          intro hv
          exact hfacts a ha hv
        · exact h

/-- C1: aggregate non-slashability.  Running any sequence of
`check_and_insert_block_signing_root` / `check_and_insert_attestation_signing_root`
calls from a store satisfying the invariant (in particular from the empty
store) keeps it: for every validator there are no two block rows at the same
slot, at most one attestation row per target epoch (hence no double vote),
and no pair of attestation rows in which one strictly surrounds the other.
Calls whose result is unsuccessful leave the state unchanged, so the
statement quantifies over arbitrary call sequences. -/
theorem accepted_history_non_slashable (db : SlashingDatabase)
    (ops : List Op) (h : StoreInv db) : StoreInv (run_ops db ops) := by
  induction ops generalizing db with
  | nil => exact h
  | cons op ops ih =>
      show StoreInv (run_ops (apply_op db op).2 ops)
      exact ih _ (apply_op_preserves_inv db op h)

/-- Witness for C1: a concrete run mixing accepted and rejected calls from a
freshly created store with one registered validator. -/
theorem accepted_history_non_slashable_witness :
    StoreInv (register_validator SlashingDatabase.create 7) ∧
    StoreInv (run_ops (register_validator SlashingDatabase.create 7)
      [.block 7 5 9, .att 7 4 8 1, .block 7 5 8, .att 7 3 9 2, .att 7 5 10 3]) :=
  ⟨by decide,
   accepted_history_non_slashable (register_validator SlashingDatabase.create 7)
     [.block 7 5 9, .att 7 4 8 1, .block 7 5 8, .att 7 3 9 2, .att 7 5 10 3]
     (by decide)⟩

/-- C10: Minimal import is all-or-nothing.  The Minimal branch of
`import_interchange_info` runs in a single transaction; when it fails on any
record (e.g. `MinimalAttestationSourceAndTargetInconsistent`), the
transaction is dropped without commit, so validator registrations and
lower-bound updates performed for earlier records do not persist: the store
is unchanged. -/
theorem minimal_import_atomic (db : SlashingDatabase)
    (interchange : Interchange) (gvr : Nat)
    (records : List MinimalInterchangeData)
    (hdata : interchange.data = .Minimal records) :
    ∀ e, (import_interchange_info db interchange gvr).1 = .error e →
      (import_interchange_info db interchange gvr).2 = db := by
  intro e h
  unfold import_interchange_info at h ⊢
  split at h <;> rename_i h1
  · rw [if_pos h1]
  · rw [if_neg h1]
    split at h <;> rename_i h2
    · rw [if_pos h2]
    · rw [if_neg h2]
      simp only [hdata] at h ⊢
      cases hm : import_minimal_txn db records with
      | ok db2 =>
          simp only [hm] at h
          cases h
      | error e2 =>
          simp only [hm]

/-- Witness for C10: a Minimal document whose first record is fine (it would
register pubkey `8` and set a lower bound) and whose second record has a
source without a target fails with
`MinimalAttestationSourceAndTargetInconsistent` and leaves the store exactly
as before the call. -/
theorem minimal_import_atomic_witness :
    (import_interchange_info (register_validator SlashingDatabase.create 7)
      ⟨⟨.Minimal, 3, 0⟩, .Minimal
        [⟨8, some 1, none, none⟩, ⟨9, none, some 7, none⟩]⟩ 0).1 =
      .error .MinimalAttestationSourceAndTargetInconsistent ∧
    (import_interchange_info (register_validator SlashingDatabase.create 7)
      ⟨⟨.Minimal, 3, 0⟩, .Minimal
        [⟨8, some 1, none, none⟩, ⟨9, none, some 7, none⟩]⟩ 0).2 =
      register_validator SlashingDatabase.create 7 :=
  ⟨rfl,
   minimal_import_atomic (register_validator SlashingDatabase.create 7)
     ⟨⟨.Minimal, 3, 0⟩, .Minimal
       [⟨8, some 1, none, none⟩, ⟨9, none, some 7, none⟩]⟩ 0
     [⟨8, some 1, none, none⟩, ⟨9, none, some 7, none⟩] rfl
     .MinimalAttestationSourceAndTargetInconsistent rfl⟩

/-- `optionMax` dominates its left argument. -/
theorem optionMax_le_left (x y : Option Nat) (v : Nat) (hx : x = some v) :
    ∃ w, optionMax x y = some w ∧ v ≤ w := by
  subst hx
  cases y with
  | none => exact ⟨v, rfl, le_refl v⟩
  | some b => exact ⟨max v b, rfl, le_max_left v b⟩

/-- `optionMax` dominates its right argument. -/
theorem optionMax_le_right (x y : Option Nat) (v : Nat) (hy : y = some v) :
    ∃ w, optionMax x y = some w ∧ v ≤ w := by
  subst hy
  cases x with
  | none => exact ⟨v, rfl, le_refl v⟩
  | some a => exact ⟨max a v, rfl, le_max_right a v⟩

/-- `optionMax` only ever returns one of its arguments' values. -/
theorem optionMax_attained (x y : Option Nat) (w : Nat)
    (h : optionMax x y = some w) : x = some w ∨ y = some w := by
  cases x with
  | none => exact Or.inr h
  | some a =>
      cases y with
      | none => exact Or.inl h
      | some b =>
          injection h with h2
          rcases max_choice a b with hm | hm
          · exact Or.inl (by rw [← h2, hm])
          · exact Or.inr (by rw [← h2, hm])

/-- A fold of `optionMax` computes exactly the maximum of the present values
among the initial value and the list. -/
theorem foldl_optionMax_spec (l : List (Option Nat)) :
    ∀ init : Option Nat,
      (∀ v, init = some v →
        ∃ w, l.foldl optionMax init = some w ∧ v ≤ w) ∧
      (∀ x ∈ l, ∀ v, x = some v →
        ∃ w, l.foldl optionMax init = some w ∧ v ≤ w) ∧
      (∀ w, l.foldl optionMax init = some w → init = some w ∨ some w ∈ l) := by
  induction l with
  | nil =>
      intro init
      exact ⟨fun v hv => ⟨v, hv, le_refl v⟩, by simp, fun w hw => Or.inl hw⟩
  | cons a l ih =>
      intro init
      obtain ⟨ih1, ih2, ih3⟩ := ih (optionMax init a)
      refine ⟨?_, ?_, ?_⟩
      · intro v hv
        obtain ⟨w1, hw1, hvw1⟩ := optionMax_le_left init a v hv
        obtain ⟨w, hw, h1⟩ := ih1 w1 hw1
        exact ⟨w, hw, le_trans hvw1 h1⟩
      · intro x hx v hv
        rcases List.mem_cons.mp hx with rfl | hx2
        · obtain ⟨w1, hw1, hvw1⟩ := optionMax_le_right init x v hv
          obtain ⟨w, hw, h1⟩ := ih1 w1 hw1
          exact ⟨w, hw, le_trans hvw1 h1⟩
        · obtain ⟨w, hw, h1⟩ := ih2 x hx2 v hv
          exact ⟨w, hw, h1⟩
      · intro w hw
        rcases ih3 w hw with h | h
        · rcases optionMax_attained init a w h with h2 | h2
          · exact Or.inl h2
          · exact Or.inr (by rw [← h2]; exact List.mem_cons_self _ _)
        · exact Or.inr (List.mem_cons_of_mem _ h)

/-- `REPLACE` hits the row with the matching key. -/
theorem find?_replace_row (rows : List LowerBoundRow) (vid : Nat)
    (lb : LowerBound)
    (h : rows.any (fun r => r.validator_id == vid) = true) :
    (rows.map (fun r =>
      if r.validator_id == vid then LowerBoundRow.mk vid lb else r)).find?
        (fun r => r.validator_id == vid) = some (LowerBoundRow.mk vid lb) := by
  induction rows with
  | nil => cases h
  | cons a rows ih =>
      simp only [List.map_cons]
      by_cases ha : a.validator_id = vid
      · rw [if_pos (by simp [ha])]
        rw [List.find?_cons_of_pos _ (by simp)]
      · rw [if_neg (by simp [ha])]
        rw [List.find?_cons_of_neg _ (by simp [ha])]
        apply ih
        simp only [List.any_cons, Bool.or_eq_true] at h
        rcases h with h | h
        · simp [ha] at h
        · exact h

/-- `find?` jumps over a prefix with no matches. -/
theorem find?_append_all_neg {α : Type} (p : α → Bool) (l : List α) (x : α)
    (h : ∀ r ∈ l, ¬ p r = true) (hx : p x = true) :
    (l ++ [x]).find? p = some x := by
  induction l with
  | nil => simp [List.find?_cons_of_pos _ hx]
  | cons a l ih =>
      rw [List.cons_append, List.find?_cons_of_neg _ (h a (List.mem_cons_self a l))]
      exact ih (fun r hr => h r (List.mem_cons_of_mem _ hr))

/-- Reading back the lower bound just set. -/
theorem get_set_lower_bound_same (db : SlashingDatabase) (vid : Nat)
    (lb : LowerBound) :
    get_lower_bound (set_lower_bound db vid lb) vid = some lb := by
  unfold get_lower_bound set_lower_bound
  by_cases hany : db.lower_bounds.any (fun r => r.validator_id == vid) = true
  · rw [if_pos hany, find?_replace_row _ _ _ hany]
    rfl
  · rw [if_neg hany]
    have hf : db.lower_bounds.any (fun r => r.validator_id == vid) = false := by
      revert hany
      cases db.lower_bounds.any (fun r => r.validator_id == vid) <;> simp
    have hall := List.any_eq_false.mp hf
    rw [find?_append_all_neg _ _ _ hall (by simp)]
    rfl

/-- Registering already-present keys is a no-op. -/
theorem register_noop (db : SlashingDatabase) (l : List Nat)
    (h : ∀ x ∈ l, (get_validator_id_opt db x).isSome = true) :
    register_validators_in_txn db l = db := by
  induction l with
  | nil => rfl
  | cons a l ih =>
      show List.foldl _ (if (get_validator_id_opt db a).isSome = true then db
        else { db with validators := db.validators ++ [a] }) l = db
      rw [if_pos (h a (List.mem_cons_self a l))]
      exact ih (fun x hx => h x (List.mem_cons_of_mem _ hx))

/-- The `LowerBound` carried by a Minimal interchange record. -/
def record_bound (r : MinimalInterchangeData) : LowerBound :=
  ⟨r.last_signed_block_slot, r.last_signed_attestation_source_epoch,
   r.last_signed_attestation_target_epoch⟩

/-- The Minimal record loop, on records all naming the same registered
validator: it succeeds, touches only the `lower_bounds` table, and leaves the
validator's bound equal to the left fold of `LowerBound.update` over the
records. -/
theorem import_minimal_records_same_pk (P : Nat) :
    ∀ (records : List MinimalInterchangeData) (db : SlashingDatabase) (vid : Nat),
      (∀ r ∈ records, r.pubkey = P) →
      (∀ r ∈ records, r.last_signed_attestation_source_epoch.isSome =
        r.last_signed_attestation_target_epoch.isSome) →
      get_validator_id_opt db P = some vid →
      ∃ db2, import_minimal_records db records = .ok db2 ∧
        db2.validators = db.validators ∧
        db2.signed_blocks = db.signed_blocks ∧
        db2.signed_attestations = db.signed_attestations ∧
        get_lower_bound db2 vid =
          (if records.isEmpty then get_lower_bound db vid
           else some (records.foldl
             (fun lb r => lb.update (record_bound r))
             ((get_lower_bound db vid).getD LowerBound.default))) := by
  intro records
  induction records with
  | nil =>
      intro db vid _ _ _
      exact ⟨db, rfl, rfl, rfl, rfl, by simp⟩
  | cons r rest ih =>
      intro db vid hpk hcons hreg
      have hrpk : r.pubkey = P := hpk r (List.mem_cons_self r rest)
      have hregr : get_validator_id_opt db r.pubkey = some vid := by
        rw [hrpk]; exact hreg
      have hconsr := hcons r (List.mem_cons_self r rest)
      simp only [import_minimal_records, hregr]
      rw [if_neg (by simp [hconsr])]
      have hreg2 : get_validator_id_opt
          (set_lower_bound db vid
            (((get_lower_bound db vid).getD LowerBound.default).update
              ⟨r.last_signed_block_slot, r.last_signed_attestation_source_epoch,
               r.last_signed_attestation_target_epoch⟩)) P = some vid := hreg
      obtain ⟨db2, hok, hv, hb, ha, hlb⟩ := ih
        (set_lower_bound db vid
          (((get_lower_bound db vid).getD LowerBound.default).update
            ⟨r.last_signed_block_slot, r.last_signed_attestation_source_epoch,
             r.last_signed_attestation_target_epoch⟩)) vid
        (fun x hx => hpk x (List.mem_cons_of_mem _ hx))
        (fun x hx => hcons x (List.mem_cons_of_mem _ hx)) hreg2
      have hset := get_set_lower_bound_same db vid
        (((get_lower_bound db vid).getD LowerBound.default).update
          ⟨r.last_signed_block_slot, r.last_signed_attestation_source_epoch,
           r.last_signed_attestation_target_epoch⟩)
      refine ⟨db2, hok, hv, hb, ha, ?_⟩
      rw [hlb, hset]
      cases rest with
      | nil => simp [record_bound]
      | cons r2 rest2 =>
          simp [record_bound]

/-- Field-wise view of a fold of `LowerBound.update`: each field is folded
with `optionMax` independently. -/
theorem foldl_update_proj (init : LowerBound) (l : List LowerBound) :
    (l.foldl LowerBound.update init).block_proposal_slot =
      (l.map (fun x => x.block_proposal_slot)).foldl optionMax
        init.block_proposal_slot ∧
    (l.foldl LowerBound.update init).attestation_source_epoch =
      (l.map (fun x => x.attestation_source_epoch)).foldl optionMax
        init.attestation_source_epoch ∧
    (l.foldl LowerBound.update init).attestation_target_epoch =
      (l.map (fun x => x.attestation_target_epoch)).foldl optionMax
        init.attestation_target_epoch := by
  induction l generalizing init with
  | nil => exact ⟨rfl, rfl, rfl⟩
  | cons a l ih =>
      simp only [List.foldl_cons, List.map_cons]
      exact ih (init.update a)

/-- `result` is the monotonic maximum of `initial` and the present values of
`supplied`: it dominates every present value, and it is attained by one of
them (so an absent value never overwrites a present one). -/
abbrev is_max_of_field (result initial : Option Nat)
    (supplied : List (Option Nat)) : Prop :=
  (∀ v, initial = some v → ∃ w, result = some w ∧ v ≤ w) ∧
  (∀ x ∈ supplied, ∀ v, x = some v → ∃ w, result = some w ∧ v ≤ w) ∧
  (∀ w, result = some w → initial = some w ∨ some w ∈ supplied)

/-- C8: Minimal-import monotonic maximum.  Importing a Minimal document whose
records all name one registered validator succeeds and leaves each
`LowerBound` field of that validator equal to the maximum of all present
values supplied for that field together with the pre-existing value (the
initial value being the stored bound, or all-absent if none is stored); an
absent field never overwrites a present one. -/
theorem minimal_import_lower_bound_max (db : SlashingDatabase)
    (P vid gvr : Nat) (records : List MinimalInterchangeData)
    (hreg : get_validator_id_opt db P = some vid)
    (hpk : ∀ r ∈ records, r.pubkey = P)
    (hcons : ∀ r ∈ records, r.last_signed_attestation_source_epoch.isSome =
      r.last_signed_attestation_target_epoch.isSome)
    (hne : records ≠ []) :
    ∃ lb2,
      (import_interchange_info db ⟨⟨.Minimal,
        SUPPORTED_INTERCHANGE_FORMAT_VERSION, gvr⟩, .Minimal records⟩ gvr).1 =
        .ok () ∧
      get_lower_bound (import_interchange_info db ⟨⟨.Minimal,
        SUPPORTED_INTERCHANGE_FORMAT_VERSION, gvr⟩, .Minimal records⟩ gvr).2
        vid = some lb2 ∧
      is_max_of_field lb2.block_proposal_slot
        ((get_lower_bound db vid).getD LowerBound.default).block_proposal_slot
        (records.map (fun r => r.last_signed_block_slot)) ∧
      is_max_of_field lb2.attestation_source_epoch
        ((get_lower_bound db vid).getD
          LowerBound.default).attestation_source_epoch
        (records.map (fun r => r.last_signed_attestation_source_epoch)) ∧
      is_max_of_field lb2.attestation_target_epoch
        ((get_lower_bound db vid).getD
          LowerBound.default).attestation_target_epoch
        (records.map (fun r => r.last_signed_attestation_target_epoch)) := by
  have himp : import_interchange_info db ⟨⟨.Minimal,
      SUPPORTED_INTERCHANGE_FORMAT_VERSION, gvr⟩, .Minimal records⟩ gvr =
      match import_minimal_txn db records with
      | .ok db2 => (.ok (), db2)
      | .error e => (.error e, db) := by
    unfold import_interchange_info
    rw [if_neg (by simp), if_neg (by simp)]
  have hereg : register_validators_in_txn db
      (records.map (fun r => r.pubkey)) = db := by
    apply register_noop
    intro x hx
    obtain ⟨r, hr, rfl⟩ := List.mem_map.mp hx
    rw [hpk r hr, hreg]
    rfl
  have htxn : import_minimal_txn db records =
      import_minimal_records db records := by
    unfold import_minimal_txn
    rw [hereg]
  obtain ⟨db2, hok, hv, hb, ha, hlb⟩ :=
    import_minimal_records_same_pk P records db vid hpk hcons hreg
  rw [htxn, hok] at himp
  have hlb2 : get_lower_bound db2 vid =
      some (records.foldl (fun lb r => lb.update (record_bound r))
        ((get_lower_bound db vid).getD LowerBound.default)) := by
    rw [hlb, if_neg (fun hc => hne (List.isEmpty_iff.mp hc))]
  have hrw : records.foldl (fun lb r => lb.update (record_bound r))
      ((get_lower_bound db vid).getD LowerBound.default) =
      (records.map record_bound).foldl LowerBound.update
        ((get_lower_bound db vid).getD LowerBound.default) := by
    rw [List.foldl_map]
  obtain ⟨hp1, hp2, hp3⟩ := foldl_update_proj
    ((get_lower_bound db vid).getD LowerBound.default)
    (records.map record_bound)
  refine ⟨records.foldl (fun lb r => lb.update (record_bound r))
    ((get_lower_bound db vid).getD LowerBound.default),
    by rw [himp], by rw [himp]; exact hlb2, ?_, ?_, ?_⟩
  · have hfield : (records.foldl (fun lb r => lb.update (record_bound r))
        ((get_lower_bound db vid).getD
          LowerBound.default)).block_proposal_slot =
        (records.map (fun r => r.last_signed_block_slot)).foldl optionMax
          ((get_lower_bound db vid).getD
            LowerBound.default).block_proposal_slot := by
      rw [hrw, hp1, List.map_map]
      rfl
    rw [hfield]
    exact foldl_optionMax_spec _ _
  · have hfield : (records.foldl (fun lb r => lb.update (record_bound r))
        ((get_lower_bound db vid).getD
          LowerBound.default)).attestation_source_epoch =
        (records.map (fun r => r.last_signed_attestation_source_epoch)).foldl
          optionMax ((get_lower_bound db vid).getD
            LowerBound.default).attestation_source_epoch := by
      rw [hrw, hp2, List.map_map]
      rfl
    rw [hfield]
    exact foldl_optionMax_spec _ _
  · have hfield : (records.foldl (fun lb r => lb.update (record_bound r))
        ((get_lower_bound db vid).getD
          LowerBound.default)).attestation_target_epoch =
        (records.map (fun r => r.last_signed_attestation_target_epoch)).foldl
          optionMax ((get_lower_bound db vid).getD
            LowerBound.default).attestation_target_epoch := by
      rw [hrw, hp3, List.map_map]
      rfl
    rw [hfield]
    exact foldl_optionMax_spec _ _

/-- Witness for C8 at the spec's scenario 4: importing `(200, 50, 60)` and
`(150, 40, 60)` for one validator leaves the lower bound at `(200, 50, 60)`. -/
theorem minimal_import_lower_bound_max_witness :
    (import_interchange_info (register_validator SlashingDatabase.create 7)
      ⟨⟨.Minimal, SUPPORTED_INTERCHANGE_FORMAT_VERSION, 0⟩, .Minimal
        [⟨7, some 200, some 50, some 60⟩,
         ⟨7, some 150, some 40, some 60⟩]⟩ 0).1 = .ok () ∧
    get_lower_bound (import_interchange_info
      (register_validator SlashingDatabase.create 7)
      ⟨⟨.Minimal, SUPPORTED_INTERCHANGE_FORMAT_VERSION, 0⟩, .Minimal
        [⟨7, some 200, some 50, some 60⟩,
         ⟨7, some 150, some 40, some 60⟩]⟩ 0).2 0 =
      some ⟨some 200, some 50, some 60⟩ := by
  obtain ⟨lb2, h1, h2, -⟩ := minimal_import_lower_bound_max
    (register_validator SlashingDatabase.create 7) 7 0 0
    [⟨7, some 200, some 50, some 60⟩, ⟨7, some 150, some 40, some 60⟩]
    rfl (by decide) (by decide) (by simp)
  exact ⟨h1, rfl⟩

/-- Counterexample to C7 as stated: a store holding one accepted attestation
`(5, 10)` and a lower-bound row (from a Minimal import) exports in Minimal
format; importing that export into a fresh store yields lower bounds
`(0, 5, 10)`.  Re-checking the very same attestation returns `SameData` on
the original store but `TargetLessThanOrEqLowerBound` on the round-tripped
store — the two stores do not return the same decision. -/
theorem export_import_round_trip_counterexample :
    (check_and_insert_attestation_signing_root
      (check_and_insert_attestation_signing_root
        (import_interchange_info (register_validator SlashingDatabase.create 7)
          ⟨⟨.Minimal, 3, 0⟩, .Minimal [⟨7, some 0, none, none⟩]⟩ 0).2
        7 5 10 1).2 7 5 10 1).1 = .ok .SameData ∧
    (check_and_insert_attestation_signing_root
      (import_interchange_info SlashingDatabase.create
        (export_interchange_info
          (check_and_insert_attestation_signing_root
            (import_interchange_info (register_validator SlashingDatabase.create 7)
              ⟨⟨.Minimal, 3, 0⟩, .Minimal [⟨7, some 0, none, none⟩]⟩ 0).2
            7 5 10 1).2 0) 0).2 7 5 10 1).1 =
      .error (.InvalidAttestation (.TargetLessThanOrEqLowerBound 10 10)) :=
  ⟨rfl, rfl⟩

/-- The lower bound a store associates with a public key. -/
def lb_of (db : SlashingDatabase) (pk : Nat) : Option LowerBound :=
  match get_validator_id_opt db pk with
  | none => none
  | some vid => get_lower_bound db vid

/-- The `(slot, signing_root)` view of a public key's block rows. -/
def proj_blocks (db : SlashingDatabase) (pk : Nat) : List (Nat × Nat) :=
  match get_validator_id_opt db pk with
  | none => []
  | some vid =>
      (db.signed_blocks.filter (fun r => r.validator_id == vid)).map
        (fun r => (r.slot, r.signing_root))

/-- The `(source, target, signing_root)` view of a public key's attestation
rows. -/
def proj_atts (db : SlashingDatabase) (pk : Nat) : List (Nat × Nat × Nat) :=
  match get_validator_id_opt db pk with
  | none => []
  | some vid =>
      (db.signed_attestations.filter (fun r => r.validator_id == vid)).map
        (fun r => (r.source_epoch, r.target_epoch, r.signing_root))

/-- `find?` through a filter is `find?` of the conjunction. -/
theorem find?_filter_conj {α : Type} (l : List α) (p q : α → Bool) :
    (l.filter p).find? q = l.find? (fun x => p x && q x) := by
  induction l with
  | nil => rfl
  | cons a l ih =>
      by_cases hp : p a = true
      · rw [List.filter_cons_of_pos hp]
        by_cases hq : q a = true
        · rw [List.find?_cons_of_pos _ hq,
            List.find?_cons_of_pos _ (by simp [hp, hq])]
        · rw [List.find?_cons_of_neg _ hq,
            List.find?_cons_of_neg _ (by simp [hq]), ih]
      · rw [List.filter_cons_of_neg hp,
          List.find?_cons_of_neg _ (by simp [hp]), ih]

/-- The same-slot query factors through the block projection. -/
theorem find?_block_proj (db : SlashingDatabase) (vid pk slot : Nat)
    (hvid : get_validator_id_opt db pk = some vid) :
    (db.signed_blocks.find?
      (fun r => r.validator_id == vid && r.slot == slot)).map
        (fun r => (r.slot, r.signing_root)) =
    (proj_blocks db pk).find? (fun x => x.1 == slot) := by
  unfold proj_blocks
  rw [hvid, List.find?_map, find?_filter_conj]
  rfl

/-- The same-target query factors through the attestation projection. -/
theorem find?_att_proj (db : SlashingDatabase) (vid pk tgt : Nat)
    (hvid : get_validator_id_opt db pk = some vid) :
    (db.signed_attestations.find?
      (fun r => r.validator_id == vid && r.target_epoch == tgt)).map
        (fun r => (r.source_epoch, r.target_epoch, r.signing_root)) =
    (proj_atts db pk).find? (fun x => x.2.1 == tgt) := by
  unfold proj_atts
  rw [hvid, List.find?_map, find?_filter_conj]
  rfl

/-- `select_max_target` on the projected triples. -/
def select_max_target_proj (p : Nat × Nat × Nat → Bool)
    (rows : List (Nat × Nat × Nat)) : Option (Nat × Nat × Nat) :=
  match rows.filter p with
  | [] => none
  | r :: rest =>
      some (rest.foldl (fun a x => if x.2.1 > a.2.1 then x else a) r)

/-- The greatest-target fold commutes with the projection. -/
theorem foldl_max_comm (rest : List AttRow) :
    ∀ r : AttRow,
      (rest.map (fun x => (x.source_epoch, x.target_epoch, x.signing_root))).foldl
        (fun a x => if x.2.1 > a.2.1 then x else a)
        (r.source_epoch, r.target_epoch, r.signing_root) =
      ((rest.foldl (fun a x =>
          if x.target_epoch > a.target_epoch then x else a) r).source_epoch,
       (rest.foldl (fun a x =>
          if x.target_epoch > a.target_epoch then x else a) r).target_epoch,
       (rest.foldl (fun a x =>
          if x.target_epoch > a.target_epoch then x else a) r).signing_root) := by
  induction rest with
  | nil => intro r; rfl
  | cons b rest ih =>
      intro r
      simp only [List.map_cons, List.foldl_cons]
      by_cases h : b.target_epoch > r.target_epoch
      · rw [if_pos h, if_pos h]
        exact ih b
      · rw [if_neg h, if_neg h]
        exact ih r

/-- The surround queries factor through the attestation projection. -/
theorem select_max_target_comm (p : AttRow → Bool)
    (q : Nat × Nat × Nat → Bool) (vid : Nat) (l : List AttRow)
    (hq : ∀ r : AttRow, p r = (r.validator_id == vid &&
      q (r.source_epoch, r.target_epoch, r.signing_root))) :
    (select_max_target p l).map
      (fun r => (r.source_epoch, r.target_epoch, r.signing_root)) =
    select_max_target_proj q
      ((l.filter (fun r => r.validator_id == vid)).map
        (fun r => (r.source_epoch, r.target_epoch, r.signing_root))) := by
  have hp : p = fun r => r.validator_id == vid &&
      q (r.source_epoch, r.target_epoch, r.signing_root) := funext hq
  subst hp
  have hA : ∀ (l : List AttRow),
      ((l.filter (fun r => r.validator_id == vid)).map
        (fun r => (r.source_epoch, r.target_epoch, r.signing_root))).filter q =
      (l.filter (fun r => r.validator_id == vid &&
        q (r.source_epoch, r.target_epoch, r.signing_root))).map
          (fun r => (r.source_epoch, r.target_epoch, r.signing_root)) := by
    intro l
    induction l with
    | nil => rfl
    | cons a l ih =>
        by_cases hv : (a.validator_id == vid) = true
        · by_cases hqa : q (a.source_epoch, a.target_epoch, a.signing_root) = true
          · simp [List.filter_cons, hv, hqa, ih]
          · simp [List.filter_cons, hv, hqa, ih]
        · simp [List.filter_cons, hv, ih]
  unfold select_max_target select_max_target_proj
  rw [hA l]
  cases hfil : l.filter (fun r => r.validator_id == vid &&
      q (r.source_epoch, r.target_epoch, r.signing_root)) with
  | nil => rfl
  | cons r rest =>
      simp only [List.map_cons]
      rw [foldl_max_comm rest r]
      rfl

/-- The same-slot dispatch is a function of the block projection. -/
theorem same_slot_dispatch_proj (db : SlashingDatabase) (vid pk slot root : Nat)
    (hvid : get_validator_id_opt db pk = some vid) :
    same_slot_dispatch db vid slot root =
      match (proj_blocks db pk).find? (fun x => x.1 == slot) with
      | some x =>
          if x.2 == root then .ok .SameData
          else .error (.InvalidBlock (.DoubleBlockProposal ⟨x.1, x.2⟩))
      | none => .ok .Valid := by
  unfold same_slot_dispatch
  rw [← find?_block_proj db vid pk slot hvid]
  cases db.signed_blocks.find?
      (fun r => r.validator_id == vid && r.slot == slot) with
  | none => rfl
  | some r => rfl

/-- The same-target dispatch (with the surround checks) is a function of the
attestation projection. -/
theorem same_target_dispatch_proj (db : SlashingDatabase)
    (vid pk src tgt root : Nat)
    (hvid : get_validator_id_opt db pk = some vid) :
    same_target_dispatch db vid src tgt root =
      match (proj_atts db pk).find? (fun x => x.2.1 == tgt) with
      | some x =>
          if x.2.2 == root then .ok .SameData
          else .error (.InvalidAttestation (.DoubleVote ⟨x.1, x.2.1, x.2.2⟩))
      | none =>
        match select_max_target_proj (fun x => x.1 < src && x.2.1 > tgt)
            (proj_atts db pk) with
        | some prev =>
            .error (.InvalidAttestation (.PrevSurroundsNew
              ⟨prev.1, prev.2.1, prev.2.2⟩))
        | none =>
          match select_max_target_proj (fun x => x.1 > src && x.2.1 < tgt)
              (proj_atts db pk) with
          | some prev =>
              .error (.InvalidAttestation (.NewSurroundsPrev
                ⟨prev.1, prev.2.1, prev.2.2⟩))
          | none => .ok .Valid := by
  have hproj : proj_atts db pk =
      (db.signed_attestations.filter (fun r => r.validator_id == vid)).map
        (fun r => (r.source_epoch, r.target_epoch, r.signing_root)) := by
    unfold proj_atts
    rw [hvid]
  unfold same_target_dispatch
  rw [← find?_att_proj db vid pk tgt hvid]
  cases db.signed_attestations.find?
      (fun r => r.validator_id == vid && r.target_epoch == tgt) with
  | some r => rfl
  | none =>
      unfold surround_checks
      rw [hproj,
        ← select_max_target_comm
          (fun r => r.validator_id == vid &&
            r.source_epoch < src && r.target_epoch > tgt)
          (fun x => x.1 < src && x.2.1 > tgt) vid
          db.signed_attestations (fun r => by simp [Bool.and_assoc]),
        ← select_max_target_comm
          (fun r => r.validator_id == vid &&
            r.source_epoch > src && r.target_epoch < tgt)
          (fun x => x.1 > src && x.2.1 < tgt) vid
          db.signed_attestations (fun r => by simp [Bool.and_assoc])]
      cases select_max_target
          (fun r => r.validator_id == vid &&
            r.source_epoch < src && r.target_epoch > tgt)
          db.signed_attestations with
      | some prev => rfl
      | none =>
          cases select_max_target
              (fun r => r.validator_id == vid &&
                r.source_epoch > src && r.target_epoch < tgt)
              db.signed_attestations with
          | some prev => rfl
          | none => rfl

/-- Block decisions depend only on the per-pubkey view: registration, lower
bound, and block projection. -/
theorem check_block_proposal_proj (a b : SlashingDatabase) (pk : Nat)
    (hreg : (get_validator_id_opt a pk).isSome =
      (get_validator_id_opt b pk).isSome)
    (hlb : lb_of a pk = lb_of b pk)
    (hpb : proj_blocks a pk = proj_blocks b pk) :
    ∀ slot root,
      check_block_proposal a pk slot root = check_block_proposal b pk slot root := by
  intro slot root
  cases hva : get_validator_id_opt a pk with
  | none =>
      have hvb : get_validator_id_opt b pk = none := by
        cases hvb2 : get_validator_id_opt b pk with
        | none => rfl
        | some v => rw [hva, hvb2] at hreg; simp at hreg
      simp only [check_block_proposal, hva, hvb]
  | some vidA =>
      obtain ⟨vidB, hvb⟩ : ∃ v, get_validator_id_opt b pk = some v := by
        cases hvb2 : get_validator_id_opt b pk with
        | none => rw [hva, hvb2] at hreg; simp at hreg
        | some v => exact ⟨v, rfl⟩
      have hlbeq : get_lower_bound a vidA = get_lower_bound b vidB := by
        unfold lb_of at hlb
        rw [hva, hvb] at hlb
        exact hlb
      simp only [check_block_proposal, hva, hvb]
      rw [hlbeq]
      cases (get_lower_bound b vidB).bind (fun lb => lb.block_proposal_slot) with
      | some bound =>
          show (if slot ≤ bound then Except.error (NotSafe.InvalidBlock
              (InvalidBlock.SlotViolatesLowerBound slot bound))
            else same_slot_dispatch a vidA slot root) =
            (if slot ≤ bound then Except.error (NotSafe.InvalidBlock
              (InvalidBlock.SlotViolatesLowerBound slot bound))
            else same_slot_dispatch b vidB slot root)
          by_cases hle : slot ≤ bound
          · rw [if_pos hle, if_pos hle]
          · rw [if_neg hle, if_neg hle,
              same_slot_dispatch_proj a vidA pk slot root hva,
              same_slot_dispatch_proj b vidB pk slot root hvb, hpb]
      | none =>
          show same_slot_dispatch a vidA slot root =
            same_slot_dispatch b vidB slot root
          rw [same_slot_dispatch_proj a vidA pk slot root hva,
            same_slot_dispatch_proj b vidB pk slot root hvb, hpb]

/-- Attestation decisions depend only on the per-pubkey view. -/
theorem check_attestation_proj (a b : SlashingDatabase) (pk : Nat)
    (hreg : (get_validator_id_opt a pk).isSome =
      (get_validator_id_opt b pk).isSome)
    (hlb : lb_of a pk = lb_of b pk)
    (hpa : proj_atts a pk = proj_atts b pk) :
    ∀ src tgt root,
      check_attestation a pk src tgt root = check_attestation b pk src tgt root := by
  intro src tgt root
  by_cases hst : src > tgt
  · unfold check_attestation
    rw [if_pos hst, if_pos hst]
  · cases hva : get_validator_id_opt a pk with
    | none =>
        have hvb : get_validator_id_opt b pk = none := by
          cases hvb2 : get_validator_id_opt b pk with
          | none => rfl
          | some v => rw [hva, hvb2] at hreg; simp at hreg
        unfold check_attestation
        rw [if_neg hst, if_neg hst]
        simp only [hva, hvb]
    | some vidA =>
        obtain ⟨vidB, hvb⟩ : ∃ v, get_validator_id_opt b pk = some v := by
          cases hvb2 : get_validator_id_opt b pk with
          | none => rw [hva, hvb2] at hreg; simp at hreg
          | some v => exact ⟨v, rfl⟩
        have hlbeq : get_lower_bound a vidA = get_lower_bound b vidB := by
          unfold lb_of at hlb
          rw [hva, hvb] at hlb
          exact hlb
        rw [check_attestation_unfold a pk vidA src tgt root hva (by omega),
          check_attestation_unfold b pk vidB src tgt root hvb (by omega), hlbeq]
        cases att_lower_bound_check (get_lower_bound b vidB) src tgt with
        | some e => rfl
        | none =>
            show same_target_dispatch a vidA src tgt root =
              same_target_dispatch b vidB src tgt root
            rw [same_target_dispatch_proj a vidA pk src tgt root hva,
              same_target_dispatch_proj b vidB pk src tgt root hvb, hpa]

/-- `get_lower_bound` on a store with no lower-bound rows. -/
theorem get_lower_bound_empty {db : SlashingDatabase}
    (h : db.lower_bounds = []) (vid : Nat) : get_lower_bound db vid = none := by
  unfold get_lower_bound
  rw [h]
  rfl

/-- An unregistered key resolves to no id. -/
theorem get_validator_id_opt_not_mem (db : SlashingDatabase) (pk : Nat)
    (h : pk ∉ db.validators) : get_validator_id_opt db pk = none := by
  unfold get_validator_id_opt
  rw [List.findIdx?_eq_none_iff]
  intro x hx
  simp only [beq_eq_false_iff_ne, ne_eq]
  rintro rfl
  exact h hx

/-- A resolved id is a position in the validator table holding the key. -/
theorem validator_at_of_id {db : SlashingDatabase} {pk vid : Nat}
    (h : get_validator_id_opt db pk = some vid) :
    vid < db.validators.length ∧ db.validators[vid]? = some pk := by
  unfold get_validator_id_opt at h
  rw [List.findIdx?_eq_some_iff_getElem] at h
  obtain ⟨hlt, hp, -⟩ := h
  simp only [beq_iff_eq] at hp
  exact ⟨hlt, by rw [List.getElem?_eq_getElem hlt, hp]⟩

/-- Appending a validator row does not change an already-resolved id. -/
theorem get_validator_id_append_old {V : List Nat} {pk vid : Nat} (x : Nat)
    (h : V.findIdx? (fun y => y == pk) = some vid) :
    (V ++ [x]).findIdx? (fun y => y == pk) = some vid := by
  rw [List.findIdx?_append, h]
  rfl

/-- Registering a fresh key assigns it the next id. -/
theorem get_validator_id_append_self {V : List Nat} {pk : Nat} (h : pk ∉ V) :
    (V ++ [pk]).findIdx? (fun y => y == pk) = some V.length := by
  have hn : V.findIdx? (fun y => y == pk) = none := by
    rw [List.findIdx?_eq_none_iff]
    intro x hx
    simp only [beq_eq_false_iff_ne, ne_eq]
    rintro rfl
    exact h hx
  rw [List.findIdx?_append, hn]
  simp [List.findIdx?_cons]

/-- A key that is neither present nor the appended one stays unresolved. -/
theorem get_validator_id_append_other {V : List Nat} {pk : Nat} (x : Nat)
    (h : pk ∉ V) (hne : pk ≠ x) :
    (V ++ [x]).findIdx? (fun y => y == pk) = none := by
  have hn : V.findIdx? (fun y => y == pk) = none := by
    rw [List.findIdx?_eq_none_iff]
    intro y hy
    simp only [beq_eq_false_iff_ne, ne_eq]
    rintro rfl
    exact h hy
  rw [List.findIdx?_append, hn]
  simp [List.findIdx?_cons, Ne.symm hne]

/-- Registering a key not yet present appends it. -/
theorem register_fresh (S : SlashingDatabase) (pk : Nat)
    (h : pk ∉ S.validators) :
    register_validator S pk = { S with validators := S.validators ++ [pk] } := by
  have hn : get_validator_id_opt S pk = none := get_validator_id_opt_not_mem S pk h
  show List.foldl _ _ _ = _
  simp only [List.foldl_cons, List.foldl_nil, hn]
  rfl

/-- Replaying pairwise-distinct block slots of one validator, none of which
collides with that validator's existing rows, succeeds and appends the rows
in order. -/
theorem import_blocks_run (pk vid : Nat) :
    ∀ (bs : List InterchangeBlock) (S : SlashingDatabase),
      get_validator_id_opt S pk = some vid →
      S.lower_bounds = [] →
      (∀ x ∈ bs, ∀ r ∈ S.signed_blocks, r.validator_id = vid →
        r.slot ≠ x.slot) →
      bs.Pairwise (fun x y => x.slot ≠ y.slot) →
      import_complete_blocks S pk bs =
        (.ok (), { S with signed_blocks := (S.signed_blocks ++
          bs.map (fun b => ⟨vid, b.slot, b.signing_root.getD 0⟩)) }) := by
  intro bs
  induction bs with
  | nil =>
      intro S h1 h2 h3 h4
      simp [import_complete_blocks]
  | cons b rest ih =>
      intro S h1 h2 h3 h4
      have hnorow : ∀ r ∈ S.signed_blocks,
          ¬(r.validator_id = vid ∧ r.slot = b.slot) := by
        intro r hr ⟨hrv, hrs⟩
        exact h3 b (List.mem_cons_self b rest) r hr hrv hrs
      have hcheck : check_block_proposal S pk b.slot (b.signing_root.getD 0) =
          .ok .Valid := by
        rw [check_block_proposal_pass_bound S pk vid b.slot _ h1
          (fun bb hbb => by rw [get_lower_bound_empty h2] at hbb; cases hbb)]
        unfold same_slot_dispatch
        have hfind : S.signed_blocks.find?
            (fun r => r.validator_id == vid && r.slot == b.slot) = none := by
          rw [List.find?_eq_none]
          intro r hr
          simp only [Bool.and_eq_true, beq_iff_eq]
          tauto
        rw [hfind]
      have hw : check_and_insert_block_signing_root S pk b.slot
          (b.signing_root.getD 0) = (.ok .Valid,
            { S with signed_blocks := S.signed_blocks ++
              [⟨vid, b.slot, b.signing_root.getD 0⟩] }) := by
        rw [check_and_insert_block_eq, hcheck,
          insert_block_proposal_ok S pk vid b.slot _ h1 hnorow]
      simp only [import_complete_blocks, hw]
      rw [ih { S with signed_blocks := S.signed_blocks ++
          [⟨vid, b.slot, b.signing_root.getD 0⟩] } h1 h2 ?_ (List.Pairwise.sublist
            (List.sublist_cons_self b rest) h4)]
      · simp [List.append_assoc]
      · intro x hx r hr hrv
        rcases List.mem_append.mp hr with hr2 | hr2
        · exact h3 x (List.mem_cons_of_mem _ hx) r hr2 hrv
        · rw [List.mem_singleton] at hr2
          subst hr2
          have := (List.pairwise_cons.mp h4).1 x hx
          simpa using this

/-- Pairwise non-slashability of interchange attestations. -/
abbrev pairwise_good_att (x y : InterchangeAttestation) : Prop :=
  x.target_epoch ≠ y.target_epoch ∧
  ¬(x.source_epoch < y.source_epoch ∧ y.target_epoch < x.target_epoch) ∧
  ¬(y.source_epoch < x.source_epoch ∧ x.target_epoch < y.target_epoch)

/-- Replaying a pairwise non-slashable attestation history of one validator,
none of which conflicts with that validator's existing rows, succeeds and
appends the rows in order. -/
theorem import_atts_run (pk vid : Nat) :
    ∀ (ats : List InterchangeAttestation) (S : SlashingDatabase),
      get_validator_id_opt S pk = some vid →
      S.lower_bounds = [] →
      (∀ x ∈ ats, ∀ r ∈ S.signed_attestations, r.validator_id = vid →
        r.target_epoch ≠ x.target_epoch ∧
        ¬(r.source_epoch < x.source_epoch ∧ x.target_epoch < r.target_epoch) ∧
        ¬(x.source_epoch < r.source_epoch ∧ r.target_epoch < x.target_epoch)) →
      ats.Pairwise pairwise_good_att →
      (∀ x ∈ ats, x.source_epoch ≤ x.target_epoch) →
      import_complete_atts S pk ats =
        (.ok (), { S with signed_attestations := (S.signed_attestations ++
          ats.map (fun a => ⟨vid, a.source_epoch, a.target_epoch,
            a.signing_root.getD 0⟩)) }) := by
  intro ats
  induction ats with
  | nil =>
      intro S h1 h2 h3 h4 h5
      simp [import_complete_atts]
  | cons a rest ih =>
      intro S h1 h2 h3 h4 h5
      have hhead := fun r hr hrv => h3 a (List.mem_cons_self a rest) r hr hrv
      have hst : a.source_epoch ≤ a.target_epoch :=
        h5 a (List.mem_cons_self a rest)
      have hcheck : check_attestation S pk a.source_epoch a.target_epoch
          (a.signing_root.getD 0) = .ok .Valid := by
        rw [check_attestation_unfold S pk vid a.source_epoch a.target_epoch _
          h1 hst, get_lower_bound_empty h2]
        show same_target_dispatch S vid a.source_epoch a.target_epoch
          (a.signing_root.getD 0) = .ok .Valid
        unfold same_target_dispatch
        have hfind : S.signed_attestations.find?
            (fun r => r.validator_id == vid &&
              r.target_epoch == a.target_epoch) = none := by
          rw [List.find?_eq_none]
          intro r hr
          simp only [Bool.and_eq_true, beq_iff_eq]
          intro ⟨hrv, hrt⟩
          exact (hhead r hr hrv).1 hrt
        rw [hfind]
        unfold surround_checks
        have hs1 : select_max_target
            (fun r => r.validator_id == vid &&
              r.source_epoch < a.source_epoch &&
              r.target_epoch > a.target_epoch)
            S.signed_attestations = none := by
          rw [select_max_target_eq_none]
          intro r hr
          rw [Bool.eq_false_iff]
          intro htrue
          simp only [Bool.and_eq_true, beq_iff_eq, decide_eq_true_eq] at htrue
          exact (hhead r hr htrue.1.1).2.1 ⟨htrue.1.2, htrue.2⟩
        have hs2 : select_max_target
            (fun r => r.validator_id == vid &&
              r.source_epoch > a.source_epoch &&
              r.target_epoch < a.target_epoch)
            S.signed_attestations = none := by
          rw [select_max_target_eq_none]
          intro r hr
          rw [Bool.eq_false_iff]
          intro htrue
          simp only [Bool.and_eq_true, beq_iff_eq, decide_eq_true_eq] at htrue
          exact (hhead r hr htrue.1.1).2.2 ⟨htrue.1.2, htrue.2⟩
        rw [hs1, hs2]
      obtain ⟨-, vid2, hvid2, -, hins⟩ :=
        insert_after_att_valid S pk a.source_epoch a.target_epoch
          (a.signing_root.getD 0) hcheck
      rw [h1] at hvid2
      injection hvid2 with hvid2
      subst hvid2
      have hw : check_and_insert_attestation_signing_root S pk a.source_epoch
          a.target_epoch (a.signing_root.getD 0) = (.ok .Valid,
            { S with signed_attestations := (S.signed_attestations ++
              [⟨vid, a.source_epoch, a.target_epoch,
                a.signing_root.getD 0⟩]) }) := by
        rw [check_and_insert_att_eq, hcheck, hins]
      simp only [import_complete_atts, hw]
      rw [ih { S with signed_attestations := (S.signed_attestations ++
          [⟨vid, a.source_epoch, a.target_epoch, a.signing_root.getD 0⟩]) }
        h1 h2 ?_ (List.Pairwise.sublist (List.sublist_cons_self a rest) h4)
        (fun x hx => h5 x (List.mem_cons_of_mem _ hx))]
      · simp [List.append_assoc]
      · intro x hx r hr hrv
        rcases List.mem_append.mp hr with hr2 | hr2
        · exact h3 x (List.mem_cons_of_mem _ hx) r hr2 hrv
        · rw [List.mem_singleton] at hr2
          subst hr2
          have hpw := (List.pairwise_cons.mp h4).1 x hx
          exact ⟨hpw.1, hpw.2.1, hpw.2.2⟩

/-- With no lower-bound rows, every key's lower bound is absent. -/
theorem lb_of_empty {db : SlashingDatabase} (h : db.lower_bounds = [])
    (pk : Nat) : lb_of db pk = none := by
  unfold lb_of
  cases get_validator_id_opt db pk with
  | none => rfl
  | some vid => exact get_lower_bound_empty h vid

/-- A registered key resolves to some id. -/
theorem get_validator_id_opt_mem {db : SlashingDatabase} {pk : Nat}
    (h : pk ∈ db.validators) : ∃ vid, get_validator_id_opt db pk = some vid := by
  cases hv : get_validator_id_opt db pk with
  | some vid => exact ⟨vid, rfl⟩
  | none =>
      unfold get_validator_id_opt at hv
      rw [List.findIdx?_eq_none_iff] at hv
      have := hv pk h
      simp at this

/-- Appending a fresh validator does not change any key's block projection,
provided all rows reference existing validators. -/
theorem proj_blocks_validators_append (S : SlashingDatabase) (x pk : Nat)
    (hbound : ∀ r ∈ S.signed_blocks, r.validator_id < S.validators.length)
    (hx : x ∉ S.validators) :
    proj_blocks { S with validators := (S.validators ++ [x]) } pk =
      proj_blocks S pk := by
  unfold proj_blocks
  by_cases hmem : pk ∈ S.validators
  · obtain ⟨vid, hv⟩ := get_validator_id_opt_mem hmem
    have hv2 : get_validator_id_opt
        { S with validators := (S.validators ++ [x]) } pk = some vid :=
      get_validator_id_append_old x hv
    rw [hv, hv2]
  · by_cases hpk : pk = x
    · subst hpk
      have hv : get_validator_id_opt S pk = none :=
        get_validator_id_opt_not_mem S pk hmem
      have hv2 : get_validator_id_opt
          { S with validators := (S.validators ++ [pk]) } pk =
            some S.validators.length := get_validator_id_append_self hmem
      rw [hv, hv2]
      have hfil : S.signed_blocks.filter
          (fun r => r.validator_id == S.validators.length) = [] := by
        rw [List.filter_eq_nil_iff]
        intro r hr
        simp only [beq_iff_eq]
        have := hbound r hr
        omega
      simp [hfil]
    · have hv : get_validator_id_opt S pk = none :=
        get_validator_id_opt_not_mem S pk hmem
      have hv2 : get_validator_id_opt
          { S with validators := (S.validators ++ [x]) } pk = none :=
        get_validator_id_append_other x hmem hpk
      rw [hv, hv2]

/-- Attestation analogue of `proj_blocks_validators_append`. -/
theorem proj_atts_validators_append (S : SlashingDatabase) (x pk : Nat)
    (hbound : ∀ r ∈ S.signed_attestations,
      r.validator_id < S.validators.length)
    (hx : x ∉ S.validators) :
    proj_atts { S with validators := (S.validators ++ [x]) } pk =
      proj_atts S pk := by
  unfold proj_atts
  by_cases hmem : pk ∈ S.validators
  · obtain ⟨vid, hv⟩ := get_validator_id_opt_mem hmem
    have hv2 : get_validator_id_opt
        { S with validators := (S.validators ++ [x]) } pk = some vid :=
      get_validator_id_append_old x hv
    rw [hv, hv2]
  · by_cases hpk : pk = x
    · subst hpk
      have hv : get_validator_id_opt S pk = none :=
        get_validator_id_opt_not_mem S pk hmem
      have hv2 : get_validator_id_opt
          { S with validators := (S.validators ++ [pk]) } pk =
            some S.validators.length := get_validator_id_append_self hmem
      rw [hv, hv2]
      have hfil : S.signed_attestations.filter
          (fun r => r.validator_id == S.validators.length) = [] := by
        rw [List.filter_eq_nil_iff]
        intro r hr
        simp only [beq_iff_eq]
        have := hbound r hr
        omega
      simp [hfil]
    · have hv : get_validator_id_opt S pk = none :=
        get_validator_id_opt_not_mem S pk hmem
      have hv2 : get_validator_id_opt
          { S with validators := (S.validators ++ [x]) } pk = none :=
        get_validator_id_append_other x hmem hpk
      rw [hv, hv2]

/-- Appending block rows extends the owner's projection and leaves the other
keys' projections unchanged. -/
theorem proj_blocks_rows_append (S : SlashingDatabase) (rows : List BlockRow)
    (pk : Nat) :
    proj_blocks { S with signed_blocks := (S.signed_blocks ++ rows) } pk =
      proj_blocks S pk ++
        (match get_validator_id_opt S pk with
         | none => []
         | some vid =>
            (rows.filter (fun r => r.validator_id == vid)).map
              (fun r => (r.slot, r.signing_root))) := by
  unfold proj_blocks
  have hsame : get_validator_id_opt
      { S with signed_blocks := (S.signed_blocks ++ rows) } pk =
      get_validator_id_opt S pk := rfl
  rw [hsame]
  cases get_validator_id_opt S pk with
  | none => rfl
  | some vid => simp [List.filter_append]

/-- Attestation analogue of `proj_blocks_rows_append`. -/
theorem proj_atts_rows_append (S : SlashingDatabase) (rows : List AttRow)
    (pk : Nat) :
    proj_atts { S with signed_attestations :=
      (S.signed_attestations ++ rows) } pk =
      proj_atts S pk ++
        (match get_validator_id_opt S pk with
         | none => []
         | some vid =>
            (rows.filter (fun r => r.validator_id == vid)).map
              (fun r => (r.source_epoch, r.target_epoch, r.signing_root))) := by
  unfold proj_atts
  have hsame : get_validator_id_opt
      { S with signed_attestations := (S.signed_attestations ++ rows) } pk =
      get_validator_id_opt S pk := rfl
  rw [hsame]
  cases get_validator_id_opt S pk with
  | none => rfl
  | some vid => simp [List.filter_append]

/-- Resolution of a key after appending one fresh validator. -/
theorem get_validator_id_final (S : SlashingDatabase) (pk2 : Nat)
    (B2 : List BlockRow) (A2 : List AttRow) (L2 : List LowerBoundRow)
    (pk : Nat) (hfresh : pk2 ∉ S.validators) :
    get_validator_id_opt ⟨S.validators ++ [pk2], B2, A2, L2⟩ pk =
      (if pk = pk2 then some S.validators.length
       else get_validator_id_opt S pk) := by
  by_cases hpk : pk = pk2
  · subst hpk
    rw [if_pos rfl]
    exact get_validator_id_append_self hfresh
  · rw [if_neg hpk]
    by_cases hmem : pk ∈ S.validators
    · obtain ⟨v, hv⟩ := get_validator_id_opt_mem hmem
      rw [hv]
      exact get_validator_id_append_old pk2 hv
    · rw [get_validator_id_opt_not_mem S pk hmem]
      exact get_validator_id_append_other pk2 hmem hpk

/-- Block projection after registering one fresh validator and appending its
rows. -/
theorem proj_blocks_final (S : SlashingDatabase) (pk2 : Nat)
    (brows : List BlockRow) (arows : List AttRow) (pk : Nat)
    (hbb : ∀ r ∈ S.signed_blocks, r.validator_id < S.validators.length)
    (hfresh : pk2 ∉ S.validators)
    (hbvid : ∀ r ∈ brows, r.validator_id = S.validators.length) :
    proj_blocks ⟨S.validators ++ [pk2], S.signed_blocks ++ brows,
      S.signed_attestations ++ arows, S.lower_bounds⟩ pk =
      (if pk = pk2 then brows.map (fun r => (r.slot, r.signing_root))
       else proj_blocks S pk) := by
  unfold proj_blocks
  simp only [get_validator_id_final S pk2 _ _ _ pk hfresh]
  by_cases hpk : pk = pk2
  · subst hpk
    rw [if_pos rfl, if_pos rfl]
    show ((S.signed_blocks ++ brows).filter
      (fun r => r.validator_id == S.validators.length)).map
        (fun r => (r.slot, r.signing_root)) = _
    rw [List.filter_append]
    have h1 : S.signed_blocks.filter
        (fun r => r.validator_id == S.validators.length) = [] := by
      rw [List.filter_eq_nil_iff]
      intro r hr
      simp only [beq_iff_eq]
      have := hbb r hr
      omega
    have h2 : brows.filter
        (fun r => r.validator_id == S.validators.length) = brows := by
      rw [List.filter_eq_self]
      intro r hr
      simp [hbvid r hr]
    rw [h1, h2]
    rfl
  · rw [if_neg hpk, if_neg hpk]
    cases hv : get_validator_id_opt S pk with
    | none => rfl
    | some v =>
        have hvlt : v < S.validators.length := (validator_at_of_id hv).1
        show ((S.signed_blocks ++ brows).filter
          (fun r => r.validator_id == v)).map (fun r => (r.slot, r.signing_root)) = _
        rw [List.filter_append]
        have h2 : brows.filter (fun r => r.validator_id == v) = [] := by
          rw [List.filter_eq_nil_iff]
          intro r hr
          simp only [beq_iff_eq]
          have := hbvid r hr
          omega
        rw [h2, List.append_nil]

/-- Attestation projection after registering one fresh validator and
appending its rows. -/
theorem proj_atts_final (S : SlashingDatabase) (pk2 : Nat)
    (brows : List BlockRow) (arows : List AttRow) (pk : Nat)
    (hba : ∀ r ∈ S.signed_attestations, r.validator_id < S.validators.length)
    (hfresh : pk2 ∉ S.validators)
    (havid : ∀ r ∈ arows, r.validator_id = S.validators.length) :
    proj_atts ⟨S.validators ++ [pk2], S.signed_blocks ++ brows,
      S.signed_attestations ++ arows, S.lower_bounds⟩ pk =
      (if pk = pk2 then arows.map
        (fun r => (r.source_epoch, r.target_epoch, r.signing_root))
       else proj_atts S pk) := by
  unfold proj_atts
  simp only [get_validator_id_final S pk2 _ _ _ pk hfresh]
  by_cases hpk : pk = pk2
  · subst hpk
    rw [if_pos rfl, if_pos rfl]
    show ((S.signed_attestations ++ arows).filter
      (fun r => r.validator_id == S.validators.length)).map
        (fun r => (r.source_epoch, r.target_epoch, r.signing_root)) = _
    rw [List.filter_append]
    have h1 : S.signed_attestations.filter
        (fun r => r.validator_id == S.validators.length) = [] := by
      rw [List.filter_eq_nil_iff]
      intro r hr
      simp only [beq_iff_eq]
      have := hba r hr
      omega
    have h2 : arows.filter
        (fun r => r.validator_id == S.validators.length) = arows := by
      rw [List.filter_eq_self]
      intro r hr
      simp [havid r hr]
    rw [h1, h2]
    rfl
  · rw [if_neg hpk, if_neg hpk]
    cases hv : get_validator_id_opt S pk with
    | none => rfl
    | some v =>
        have hvlt : v < S.validators.length := (validator_at_of_id hv).1
        show ((S.signed_attestations ++ arows).filter
          (fun r => r.validator_id == v)).map
            (fun r => (r.source_epoch, r.target_epoch, r.signing_root)) = _
        rw [List.filter_append]
        have h2 : arows.filter (fun r => r.validator_id == v) = [] := by
          rw [List.filter_eq_nil_iff]
          intro r hr
          simp only [beq_iff_eq]
          have := havid r hr
          omega
        rw [h2, List.append_nil]

/-- A well-formed Complete interchange record: pairwise-distinct block slots,
pairwise non-slashable attestations, sources not exceeding targets. -/
abbrev good_rec (rec : CompleteInterchangeData) : Prop :=
  rec.signed_blocks.Pairwise (fun x y => x.slot ≠ y.slot) ∧
  rec.signed_attestations.Pairwise pairwise_good_att ∧
  (∀ a ∈ rec.signed_attestations, a.source_epoch ≤ a.target_epoch)

/-- Importing a list of well-formed Complete records with fresh, distinct
public keys succeeds; afterwards each record's key projects exactly to the
record's contents and every other key's view is unchanged. -/
theorem import_records_run :
    ∀ (recs : List CompleteInterchangeData) (S : SlashingDatabase),
      (recs.map (fun r => r.pubkey)).Nodup →
      (∀ rec ∈ recs, rec.pubkey ∉ S.validators) →
      S.lower_bounds = [] →
      (∀ r ∈ S.signed_blocks, r.validator_id < S.validators.length) →
      (∀ r ∈ S.signed_attestations, r.validator_id < S.validators.length) →
      (∀ rec ∈ recs, good_rec rec) →
      ∃ S3, import_complete_records S recs = (.ok (), S3) ∧
        S3.lower_bounds = [] ∧
        (∀ pk, pk ∉ recs.map (fun r => r.pubkey) →
          get_validator_id_opt S3 pk = get_validator_id_opt S pk ∧
          proj_blocks S3 pk = proj_blocks S pk ∧
          proj_atts S3 pk = proj_atts S pk) ∧
        (∀ rec ∈ recs,
          (get_validator_id_opt S3 rec.pubkey).isSome = true ∧
          proj_blocks S3 rec.pubkey =
            rec.signed_blocks.map (fun b => (b.slot, b.signing_root.getD 0)) ∧
          proj_atts S3 rec.pubkey =
            rec.signed_attestations.map (fun a =>
              (a.source_epoch, a.target_epoch, a.signing_root.getD 0))) := by
  intro recs
  induction recs with
  | nil =>
      intro S _ _ hlb _ _ _
      exact ⟨S, rfl, hlb, fun pk _ => ⟨rfl, rfl, rfl⟩, by simp⟩
  | cons rec rest ih =>
      intro S hnodup hdisj hlb hbb hba hgood
      have hfresh : rec.pubkey ∉ S.validators :=
        hdisj rec (List.mem_cons_self rec rest)
      have hreg1 : register_validator S rec.pubkey =
          { S with validators := (S.validators ++ [rec.pubkey]) } :=
        register_fresh S rec.pubkey hfresh
      have hv1 : get_validator_id_opt
          { S with validators := (S.validators ++ [rec.pubkey]) } rec.pubkey =
          some S.validators.length := get_validator_id_append_self hfresh
      obtain ⟨hgb, hga, hgs⟩ := hgood rec (List.mem_cons_self rec rest)
      have hrun_b := import_blocks_run rec.pubkey S.validators.length
        rec.signed_blocks { S with validators := (S.validators ++ [rec.pubkey]) }
        hv1 hlb
        (fun x hx r hr hrv => by have := hbb r hr; omega) hgb
      have hv2 : get_validator_id_opt
          { { S with validators := (S.validators ++ [rec.pubkey]) } with
            signed_blocks :=
              ({ S with validators := (S.validators ++ [rec.pubkey]) }.signed_blocks ++
                rec.signed_blocks.map (fun (b : InterchangeBlock) => BlockRow.mk S.validators.length b.slot (b.signing_root.getD 0))) } rec.pubkey =
          some S.validators.length := hv1
      have hrun_a := import_atts_run rec.pubkey S.validators.length
        rec.signed_attestations
        { { S with validators := (S.validators ++ [rec.pubkey]) } with
          signed_blocks :=
            ({ S with validators := (S.validators ++ [rec.pubkey]) }.signed_blocks ++
              rec.signed_blocks.map (fun b => ⟨S.validators.length, b.slot,
                b.signing_root.getD 0⟩)) }
        hv2 hlb
        (fun x hx r hr hrv => by have := hba r hr; omega) hga hgs
      have e1 : import_complete_blocks (register_validator S rec.pubkey)
          rec.pubkey rec.signed_blocks = (.ok (),
          { { S with validators := (S.validators ++ [rec.pubkey]) } with
            signed_blocks :=
              ({ S with validators := (S.validators ++ [rec.pubkey]) }.signed_blocks ++
                rec.signed_blocks.map (fun (b : InterchangeBlock) => BlockRow.mk S.validators.length b.slot (b.signing_root.getD 0))) }) := by
        rw [hreg1]
        exact hrun_b
      obtain ⟨S3, hok3, hlb3, hold3, hrec3⟩ := ih
        { { { S with validators := (S.validators ++ [rec.pubkey]) } with
            signed_blocks :=
              ({ S with validators := (S.validators ++ [rec.pubkey]) }.signed_blocks ++
                rec.signed_blocks.map (fun (b : InterchangeBlock) => BlockRow.mk S.validators.length b.slot (b.signing_root.getD 0))) } with
          signed_attestations :=
            ({ { S with validators := (S.validators ++ [rec.pubkey]) } with
              signed_blocks :=
                ({ S with validators := (S.validators ++ [rec.pubkey]) }.signed_blocks ++
                  rec.signed_blocks.map (fun (b : InterchangeBlock) => BlockRow.mk S.validators.length b.slot (b.signing_root.getD 0))) }.signed_attestations ++
              rec.signed_attestations.map (fun (a : InterchangeAttestation) => AttRow.mk S.validators.length a.source_epoch a.target_epoch (a.signing_root.getD 0))) }
        (List.nodup_cons.mp hnodup).2
        (by
          intro rec2 hr2
          intro hmem
          rcases List.mem_append.mp hmem with h | h
          · exact hdisj rec2 (List.mem_cons_of_mem _ hr2) h
          · rw [List.mem_singleton] at h
            have hmm : rec2.pubkey ∈ rest.map (fun r => r.pubkey) :=
              List.mem_map_of_mem (fun r => r.pubkey) hr2
            rw [h] at hmm
            exact (List.nodup_cons.mp hnodup).1 hmm)
        hlb
        (by
          intro r hr
          show r.validator_id < (S.validators ++ [rec.pubkey]).length
          rcases List.mem_append.mp hr with h | h
          · have := hbb r h
            simp only [List.length_append, List.length_cons, List.length_nil]
            omega
          · obtain ⟨b, hb, rfl⟩ := List.mem_map.mp h
            show S.validators.length < (S.validators ++ [rec.pubkey]).length
            simp only [List.length_append, List.length_cons, List.length_nil]
            omega)
        (by
          intro r hr
          show r.validator_id < (S.validators ++ [rec.pubkey]).length
          rcases List.mem_append.mp hr with h | h
          · have := hba r h
            simp only [List.length_append, List.length_cons, List.length_nil]
            omega
          · obtain ⟨a, ha, rfl⟩ := List.mem_map.mp h
            show S.validators.length < (S.validators ++ [rec.pubkey]).length
            simp only [List.length_append, List.length_cons, List.length_nil]
            omega)
        (fun r hr => hgood r (List.mem_cons_of_mem _ hr))
      refine ⟨S3, ?_, hlb3, ?_, ?_⟩
      · show import_complete_records S (rec :: rest) = (.ok (), S3)
        simp only [import_complete_records, e1, hrun_a]
        exact hok3
      · intro pk hpk
        have hpk_rest : pk ∉ rest.map (fun r => r.pubkey) := by
          intro h
          exact hpk (by rw [List.map_cons]; exact List.mem_cons_of_mem _ h)
        have hpk_ne : pk ≠ rec.pubkey := by
          intro h
          exact hpk (by rw [List.map_cons, h]; exact List.mem_cons_self _ _)
        obtain ⟨hg3, hpb3, hpa3⟩ := hold3 pk hpk_rest
        have hg3x : get_validator_id_opt S3 pk = get_validator_id_opt
            ⟨S.validators ++ [rec.pubkey],
             S.signed_blocks ++ rec.signed_blocks.map
               (fun (b : InterchangeBlock) => BlockRow.mk S.validators.length
                 b.slot (b.signing_root.getD 0)),
             S.signed_attestations ++ rec.signed_attestations.map
               (fun (a : InterchangeAttestation) => AttRow.mk
                 S.validators.length a.source_epoch a.target_epoch
                 (a.signing_root.getD 0)),
             S.lower_bounds⟩ pk := hg3
        have hpb3x : proj_blocks S3 pk = proj_blocks
            ⟨S.validators ++ [rec.pubkey],
             S.signed_blocks ++ rec.signed_blocks.map
               (fun (b : InterchangeBlock) => BlockRow.mk S.validators.length
                 b.slot (b.signing_root.getD 0)),
             S.signed_attestations ++ rec.signed_attestations.map
               (fun (a : InterchangeAttestation) => AttRow.mk
                 S.validators.length a.source_epoch a.target_epoch
                 (a.signing_root.getD 0)),
             S.lower_bounds⟩ pk := hpb3
        have hpa3x : proj_atts S3 pk = proj_atts
            ⟨S.validators ++ [rec.pubkey],
             S.signed_blocks ++ rec.signed_blocks.map
               (fun (b : InterchangeBlock) => BlockRow.mk S.validators.length
                 b.slot (b.signing_root.getD 0)),
             S.signed_attestations ++ rec.signed_attestations.map
               (fun (a : InterchangeAttestation) => AttRow.mk
                 S.validators.length a.source_epoch a.target_epoch
                 (a.signing_root.getD 0)),
             S.lower_bounds⟩ pk := hpa3
        refine ⟨?_, ?_, ?_⟩
        · rw [hg3x, get_validator_id_final S rec.pubkey _ _ _ pk hfresh,
            if_neg hpk_ne]
        · rw [hpb3x, proj_blocks_final S rec.pubkey _ _ pk hbb hfresh
            (by
              intro r hr
              obtain ⟨b, hb, rfl⟩ := List.mem_map.mp hr
              rfl), if_neg hpk_ne]
        · rw [hpa3x, proj_atts_final S rec.pubkey _ _ pk hba hfresh
            (by
              intro r hr
              obtain ⟨a, ha, rfl⟩ := List.mem_map.mp hr
              rfl), if_neg hpk_ne]
      · intro rec2 hr2
        rcases List.mem_cons.mp hr2 with heq | hr3
        · subst heq
          have hnotin : rec2.pubkey ∉ rest.map (fun r => r.pubkey) :=
            (List.nodup_cons.mp hnodup).1
          obtain ⟨hg3, hpb3, hpa3⟩ := hold3 rec2.pubkey hnotin
          have hg3x : get_validator_id_opt S3 rec2.pubkey = get_validator_id_opt
              ⟨S.validators ++ [rec2.pubkey],
               S.signed_blocks ++ rec2.signed_blocks.map
                 (fun (b : InterchangeBlock) => BlockRow.mk S.validators.length
                   b.slot (b.signing_root.getD 0)),
               S.signed_attestations ++ rec2.signed_attestations.map
                 (fun (a : InterchangeAttestation) => AttRow.mk
                   S.validators.length a.source_epoch a.target_epoch
                   (a.signing_root.getD 0)),
               S.lower_bounds⟩ rec2.pubkey := hg3
          have hpb3x : proj_blocks S3 rec2.pubkey = proj_blocks
              ⟨S.validators ++ [rec2.pubkey],
               S.signed_blocks ++ rec2.signed_blocks.map
                 (fun (b : InterchangeBlock) => BlockRow.mk S.validators.length
                   b.slot (b.signing_root.getD 0)),
               S.signed_attestations ++ rec2.signed_attestations.map
                 (fun (a : InterchangeAttestation) => AttRow.mk
                   S.validators.length a.source_epoch a.target_epoch
                   (a.signing_root.getD 0)),
               S.lower_bounds⟩ rec2.pubkey := hpb3
          have hpa3x : proj_atts S3 rec2.pubkey = proj_atts
              ⟨S.validators ++ [rec2.pubkey],
               S.signed_blocks ++ rec2.signed_blocks.map
                 (fun (b : InterchangeBlock) => BlockRow.mk S.validators.length
                   b.slot (b.signing_root.getD 0)),
               S.signed_attestations ++ rec2.signed_attestations.map
                 (fun (a : InterchangeAttestation) => AttRow.mk
                   S.validators.length a.source_epoch a.target_epoch
                   (a.signing_root.getD 0)),
               S.lower_bounds⟩ rec2.pubkey := hpa3
          refine ⟨?_, ?_, ?_⟩
          · rw [hg3x, get_validator_id_final S rec2.pubkey _ _ _ rec2.pubkey
              hfresh, if_pos rfl]
            rfl
          · rw [hpb3x, proj_blocks_final S rec2.pubkey _ _ rec2.pubkey hbb
              hfresh (by
                intro r hr
                obtain ⟨b, hb, rfl⟩ := List.mem_map.mp hr
                rfl), if_pos rfl, List.map_map]
            rfl
          · rw [hpa3x, proj_atts_final S rec2.pubkey _ _ rec2.pubkey hba
              hfresh (by
                intro r hr
                obtain ⟨a, ha, rfl⟩ := List.mem_map.mp hr
                rfl), if_pos rfl, List.map_map]
            rfl
        · exact hrec3 rec2 hr3

/-- The result component of the block wrapper is exactly the checker's
verdict (the insert after a `Valid` check cannot fail). -/
theorem check_and_insert_block_fst (db : SlashingDatabase)
    (pk slot root : Nat) :
    (check_and_insert_block_signing_root db pk slot root).1 =
      check_block_proposal db pk slot root := by
  rw [check_and_insert_block_eq]
  cases hc : check_block_proposal db pk slot root with
  | error e => rfl
  | ok safe =>
      cases safe with
      | SameData => rfl
      | Valid =>
          obtain ⟨vid, hvid, hnorow, hins⟩ :=
            insert_after_block_valid db pk slot root hc
          rw [hins]

/-- The result component of the attestation wrapper is exactly the checker's
verdict. -/
theorem check_and_insert_att_fst (db : SlashingDatabase)
    (pk src tgt root : Nat) :
    (check_and_insert_attestation_signing_root db pk src tgt root).1 =
      check_attestation db pk src tgt root := by
  rw [check_and_insert_att_eq]
  cases hc : check_attestation db pk src tgt root with
  | error e => rfl
  | ok safe =>
      cases safe with
      | SameData => rfl
      | Valid =>
          obtain ⟨-, vid, hvid, hfacts, hins⟩ :=
            insert_after_att_valid db pk src tgt root hc
          rw [hins]

/-- With distinct registered keys, ids pointing at the same key coincide. -/
theorem id_inj_of_nodup {db : SlashingDatabase} (hnodup : db.validators.Nodup)
    {i j pk : Nat} (hi : db.validators[i]? = some pk)
    (hj : db.validators[j]? = some pk) : i = j := by
  rw [List.getElem?_eq_some_iff] at hi hj
  obtain ⟨hi1, hi2⟩ := hi
  obtain ⟨hj1, hj2⟩ := hj
  exact hnodup.getElem_inj_iff.mp (by rw [hi2, hj2])

/-- Membership in the export key set. -/
theorem mem_active_pubkeys_iff (db : SlashingDatabase) (pk : Nat) :
    pk ∈ active_pubkeys db ↔
      (∃ r ∈ db.signed_blocks, db.validators[r.validator_id]? = some pk) ∨
      (∃ r ∈ db.signed_attestations,
        db.validators[r.validator_id]? = some pk) := by
  unfold active_pubkeys
  rw [(List.perm_insertionSort _ _).mem_iff, List.mem_dedup, List.mem_append,
    List.mem_filterMap, List.mem_filterMap]

/-- The join condition of the export queries agrees with id equality. -/
theorem join_cond_eq (db : SlashingDatabase) (hnodup : db.validators.Nodup)
    {pk vid : Nat} (hvid : get_validator_id_opt db pk = some vid) (i : Nat) :
    (db.validators[i]? == some pk) = (i == vid) := by
  obtain ⟨hlt, hat⟩ := validator_at_of_id hvid
  rw [Bool.eq_iff_iff]
  simp only [beq_iff_eq]
  constructor
  · intro h
    exact id_inj_of_nodup hnodup h hat
  · intro h
    rw [h]
    exact hat

/-- An exported block record reads back as the store's block projection. -/
theorem export_blocks_proj (db : SlashingDatabase)
    (hnodup : db.validators.Nodup) {pk vid : Nat}
    (hvid : get_validator_id_opt db pk = some vid) :
    (export_blocks_for db pk).map (fun b => (b.slot, b.signing_root.getD 0)) =
      proj_blocks db pk := by
  unfold export_blocks_for proj_blocks
  rw [hvid]
  have hfil : db.signed_blocks.filter
      (fun r => db.validators[r.validator_id]? == some pk) =
      db.signed_blocks.filter (fun r => r.validator_id == vid) :=
    List.filter_congr (fun x hx => join_cond_eq db hnodup hvid x.validator_id)
  rw [hfil, List.map_map]
  rfl

/-- An exported attestation record reads back as the store's attestation
projection. -/
theorem export_atts_proj (db : SlashingDatabase)
    (hnodup : db.validators.Nodup) {pk vid : Nat}
    (hvid : get_validator_id_opt db pk = some vid) :
    (export_atts_for db pk).map (fun a =>
      (a.source_epoch, a.target_epoch, a.signing_root.getD 0)) =
      proj_atts db pk := by
  unfold export_atts_for proj_atts
  rw [hvid]
  have hfil : db.signed_attestations.filter
      (fun r => db.validators[r.validator_id]? == some pk) =
      db.signed_attestations.filter (fun r => r.validator_id == vid) :=
    List.filter_congr (fun x hx => join_cond_eq db hnodup hvid x.validator_id)
  rw [hfil, List.map_map]
  rfl

/-- Exported records of a well-formed store are well-formed. -/
theorem export_rec_good (db : SlashingDatabase)
    (hnodup : db.validators.Nodup) (hinv : StoreInv db)
    (hst : ∀ r ∈ db.signed_attestations, r.source_epoch ≤ r.target_epoch)
    (pk : Nat) :
    good_rec ⟨pk, export_blocks_for db pk, export_atts_for db pk⟩ := by
  refine ⟨?_, ?_, ?_⟩
  · show (export_blocks_for db pk).Pairwise _
    unfold export_blocks_for
    rw [List.pairwise_map]
    refine List.Pairwise.imp_of_mem ?_ ((hinv.1).filter _)
    intro a b ha hb hR
    have ha2 := (List.mem_filter.mp ha).2
    have hb2 := (List.mem_filter.mp hb).2
    simp only [beq_iff_eq] at ha2 hb2
    exact hR (id_inj_of_nodup hnodup ha2 hb2)
  · show (export_atts_for db pk).Pairwise _
    unfold export_atts_for
    rw [List.pairwise_map]
    refine List.Pairwise.imp_of_mem ?_ ((hinv.2).filter _)
    intro a b ha hb hR
    have ha2 := (List.mem_filter.mp ha).2
    have hb2 := (List.mem_filter.mp hb).2
    simp only [beq_iff_eq] at ha2 hb2
    exact hR (id_inj_of_nodup hnodup ha2 hb2)
  · intro a ha
    unfold export_atts_for at ha
    obtain ⟨r, hr, rfl⟩ := List.mem_map.mp ha
    exact hst r (List.mem_filter.mp hr).1

/-- A registered validator with at least one signed row appears in the
export key set. -/
theorem mem_active_of_registered (db : SlashingDatabase)
    (hactive : ∀ vid < db.validators.length,
      (∃ r ∈ db.signed_blocks, r.validator_id = vid) ∨
      (∃ r ∈ db.signed_attestations, r.validator_id = vid))
    {pk vid : Nat} (hvid : get_validator_id_opt db pk = some vid) :
    pk ∈ active_pubkeys db := by
  rw [mem_active_pubkeys_iff]
  obtain ⟨hlt, hat⟩ := validator_at_of_id hvid
  rcases hactive vid hlt with ⟨r, hr, hrv⟩ | ⟨r, hr, hrv⟩
  · exact Or.inl ⟨r, hr, by rw [hrv]; exact hat⟩
  · exact Or.inr ⟨r, hr, by rw [hrv]; exact hat⟩

/-- Export keys are registered. -/
theorem mem_validators_of_active (db : SlashingDatabase) {pk : Nat}
    (h : pk ∈ active_pubkeys db) : pk ∈ db.validators := by
  rw [mem_active_pubkeys_iff] at h
  rcases h with ⟨r, hr, hat⟩ | ⟨r, hr, hat⟩ <;> exact List.getElem?_mem hat

/-- C7 (amended): for a well-formed store — distinct registered keys, row
ids in range, non-slashable and source-bounded attestation history, no
lower-bound rows, and every registered validator owning at least one signed
row — exporting and importing into a fresh database succeeds and the
re-imported database gives every subsequent signing request the same verdict
as the original. -/
theorem export_import_round_trip (db : SlashingDatabase) (gvr : Nat)
    (hnodup : db.validators.Nodup)
    (hbb : ∀ r ∈ db.signed_blocks, r.validator_id < db.validators.length)
    (hba : ∀ r ∈ db.signed_attestations, r.validator_id < db.validators.length)
    (hst : ∀ r ∈ db.signed_attestations, r.source_epoch ≤ r.target_epoch)
    (hinv : StoreInv db)
    (hlb : db.lower_bounds = [])
    (hactive : ∀ vid < db.validators.length,
      (∃ r ∈ db.signed_blocks, r.validator_id = vid) ∨
      (∃ r ∈ db.signed_attestations, r.validator_id = vid)) :
    (import_interchange_info SlashingDatabase.create
      (export_interchange_info db gvr) gvr).1 = .ok () ∧
    ∀ op : Op,
      (apply_op (import_interchange_info SlashingDatabase.create
        (export_interchange_info db gvr) gvr).2 op).1 = (apply_op db op).1 := by
  have hexp : export_interchange_info db gvr =
      export_complete_interchange_info db gvr := by
    unfold export_interchange_info
    rw [hlb]
    rfl
  have himp : import_interchange_info SlashingDatabase.create
      (export_interchange_info db gvr) gvr =
      import_complete_records SlashingDatabase.create
        (export_complete_data db) := by
    rw [hexp]
    simp [import_interchange_info, export_complete_interchange_info,
      SUPPORTED_INTERCHANGE_FORMAT_VERSION]
  have hmapkeys : (export_complete_data db).map
      (fun r => r.pubkey) = active_pubkeys db := by
    unfold export_complete_data
    rw [List.map_map]
    exact List.map_id _
  have hnodup_keys :
      ((export_complete_data db).map (fun r => r.pubkey)).Nodup := by
    rw [hmapkeys]
    exact (List.perm_insertionSort _ _).nodup_iff.mpr (List.nodup_dedup _)
  have hgoodrecs : ∀ rec ∈ export_complete_data db, good_rec rec := by
    intro rec hr
    obtain ⟨pk, hpk, rfl⟩ := List.mem_map.mp hr
    exact export_rec_good db hnodup hinv hst pk
  obtain ⟨S3, hok3, hlb3, hold3, hrec3⟩ :=
    import_records_run (export_complete_data db) SlashingDatabase.create
      hnodup_keys
      (fun rec _ => List.not_mem_nil _)
      rfl
      (fun r hr => absurd hr (List.not_mem_nil r))
      (fun r hr => absurd hr (List.not_mem_nil r))
      hgoodrecs
  have hS3 : (import_interchange_info SlashingDatabase.create
      (export_interchange_info db gvr) gvr).2 = S3 := by
    rw [himp, hok3]
  constructor
  · rw [himp, hok3]
  · intro op
    have hviews : ∀ pk : Nat,
        (get_validator_id_opt S3 pk).isSome =
          (get_validator_id_opt db pk).isSome ∧
        lb_of S3 pk = lb_of db pk ∧
        proj_blocks S3 pk = proj_blocks db pk ∧
        proj_atts S3 pk = proj_atts db pk := by
      intro pk
      by_cases hact : pk ∈ active_pubkeys db
      · have hrecmem : (⟨pk, export_blocks_for db pk, export_atts_for db pk⟩ :
            CompleteInterchangeData) ∈ export_complete_data db := by
          unfold export_complete_data
          exact List.mem_map_of_mem _ hact
        obtain ⟨hg, hpb, hpa⟩ := hrec3 _ hrecmem
        have hg2 : (get_validator_id_opt S3 pk).isSome = true := hg
        have hpb2 : proj_blocks S3 pk = (export_blocks_for db pk).map
            (fun b => (b.slot, b.signing_root.getD 0)) := hpb
        have hpa2 : proj_atts S3 pk = (export_atts_for db pk).map
            (fun a => (a.source_epoch, a.target_epoch,
              a.signing_root.getD 0)) := hpa
        obtain ⟨vid, hvid⟩ :=
          get_validator_id_opt_mem (mem_validators_of_active db hact)
        refine ⟨?_, ?_, ?_, ?_⟩
        · simp [hg2, hvid]
        · rw [lb_of_empty hlb3, lb_of_empty hlb]
        · rw [hpb2]
          exact export_blocks_proj db hnodup hvid
        · rw [hpa2]
          exact export_atts_proj db hnodup hvid
      · have hnm : pk ∉ db.validators := by
          intro hmem
          obtain ⟨vid, hvid⟩ := get_validator_id_opt_mem hmem
          exact hact (mem_active_of_registered db hactive hvid)
        have hnone_db : get_validator_id_opt db pk = none :=
          get_validator_id_opt_not_mem db pk hnm
        have hnone_cr : get_validator_id_opt SlashingDatabase.create pk =
            none :=
          get_validator_id_opt_not_mem _ pk (List.not_mem_nil pk)
        have hpk_not : pk ∉ (export_complete_data db).map
            (fun r => r.pubkey) := by
          rw [hmapkeys]
          exact hact
        obtain ⟨hg, hpb, hpa⟩ := hold3 pk hpk_not
        refine ⟨?_, ?_, ?_, ?_⟩
        · rw [hg, hnone_cr, hnone_db]
        · rw [lb_of_empty hlb3, lb_of_empty hlb]
        · rw [hpb]
          unfold proj_blocks
          rw [hnone_cr, hnone_db]
        · rw [hpa]
          unfold proj_atts
          rw [hnone_cr, hnone_db]
    cases op with
    | block pk slot root =>
        obtain ⟨hreg, hlbv, hpbv, hpav⟩ := hviews pk
        rw [hS3]
        show (check_and_insert_block_signing_root S3 pk slot root).1 =
          (check_and_insert_block_signing_root db pk slot root).1
        rw [check_and_insert_block_fst, check_and_insert_block_fst]
        exact check_block_proposal_proj S3 db pk hreg hlbv hpbv slot root
    | att pk src tgt root =>
        obtain ⟨hreg, hlbv, hpbv, hpav⟩ := hviews pk
        rw [hS3]
        show (check_and_insert_attestation_signing_root S3 pk src tgt root).1 =
          (check_and_insert_attestation_signing_root db pk src tgt root).1
        rw [check_and_insert_att_fst, check_and_insert_att_fst]
        exact check_attestation_proj S3 db pk hreg hlbv hpav src tgt root

/-- A concrete well-formed store: one validator with one signed block and
one signed attestation, no lower-bound rows. -/
def round_trip_db : SlashingDatabase :=
  ⟨[5], [⟨0, 100, 7⟩], [⟨0, 1, 2, 9⟩], []⟩

/-- Witness for C7: the round trip succeeds on `round_trip_db` and a sample
request gets the same verdict before and after. -/
theorem export_import_round_trip_witness :
    (import_interchange_info SlashingDatabase.create
      (export_interchange_info round_trip_db 1) 1).1 = .ok () ∧
    (apply_op (import_interchange_info SlashingDatabase.create
      (export_interchange_info round_trip_db 1) 1).2 (Op.block 5 100 7)).1 =
      (apply_op round_trip_db (Op.block 5 100 7)).1 := by
  have h := export_import_round_trip round_trip_db 1 (by decide) (by decide)
    (by decide) (by decide) (by decide) rfl (by decide)
  exact ⟨h.1, h.2 (Op.block 5 100 7)⟩
